import Mathlib

set_option maxRecDepth 16000

/-!
Shallow embedding of the repository's `CalculatorAgent` (the feature-rich
second implementation: natural-language classifier, domain extractors, unit
conversion, graphing, history ledger with `ans` substitution) together with
proofs settling the frozen claims about it.

Modelling conventions:
* JavaScript strings are Lean `String`s (a wrapped `List Char`); the agent
  lowercases its input, so the ASCII `Char.toLower` is adequate.
* JavaScript numbers are modelled as exact rationals `ℚ`.  Numeric literals
  parsed from text are terminating decimals, hence exact; arithmetic in the
  conversion formulas is the same field arithmetic the source performs.
  Floating-point rounding is outside the model.
* Calls into external libraries (mathjs `evaluate`/`compile`, chart-file
  writing) are parameters of the pipeline (`Ext`), since their code is not
  part of this repository.  The mathjs values `math.sin(math.unit(a,'deg'))`
  and `math.std(xs)` computed inside extractors are kept symbolic
  (`ExtValue.trigDeg`, `ExtValue.stdOf`); the agent discards these fields,
  so no claim depends on their numeric value.
* Timestamps (`new Date()`, `Date.now()` in plot filenames) are dropped:
  no claim mentions them and they are pure run-time noise.
* Recursions are structural or use an explicit fuel bounded by the input
  length, so that every definition evaluates inside the kernel.
-/

namespace CalcAgent

/-! ### Character classes (JS regex `\w`, `\s`, the allowed math symbols) -/

/-- JS `\w` word characters `[A-Za-z0-9_]`. -/
def isWordChar (c : Char) : Bool :=
  ('a' ≤ c && c ≤ 'z') || ('A' ≤ c && c ≤ 'Z') || ('0' ≤ c && c ≤ '9') || c == '_'

/-- JS `\s` whitespace (ASCII portion, which is all the agent can meet). -/
def isSpaceChar (c : Char) : Bool :=
  c == ' ' || c == '\t' || c == '\n' || c == '\r'

/-- Decimal digit. -/
def isDigitChar (c : Char) : Bool :=
  '0' ≤ c && c ≤ '9'

/-- Letters, for the `/[a-zA-Z]/` test in `isNaturalLanguage`. -/
def isAlphaChar (c : Char) : Bool :=
  ('a' ≤ c && c ≤ 'z') || ('A' ≤ c && c ≤ 'Z')

/-- Arithmetic symbols of the `/[+\-*\/^√()]/` test in `isNaturalLanguage`. -/
def isMathSymbolChar (c : Char) : Bool :=
  c == '+' || c == '-' || c == '*' || c == '/' || c == '^' || c == '√' ||
    c == '(' || c == ')'

/-- Characters kept by `cleanInput` (complement of `/[^\w\s+\-*\/().,^√π]/`). -/
def allowedChar (c : Char) : Bool :=
  isWordChar c || isSpaceChar c || c == '+' || c == '-' || c == '*' ||
    c == '/' || c == '(' || c == ')' || c == '.' || c == ',' || c == '^' ||
    c == '√' || c == 'π'

/-! ### String helpers -/

/-- Drop trailing whitespace (structural helper for `trim`). -/
def dropTrailingSp : List Char → List Char
  | [] => []
  | c :: t =>
    let t' := dropTrailingSp t
    if t' = [] && isSpaceChar c then [] else c :: t'

/-- JS `String.prototype.trim` on character lists. -/
def trimChars (l : List Char) : List Char :=
  dropTrailingSp (l.dropWhile (fun c => isSpaceChar c))

/-- Collapse every whitespace run to one `' '` (JS `replace(/\s+/g, ' ')`);
the flag records whether the previous kept character came from a run. -/
def collapseWs : Bool → List Char → List Char
  | _, [] => []
  | prevSp, c :: t =>
    if isSpaceChar c then
      if prevSp then collapseWs true t else ' ' :: collapseWs true t
    else c :: collapseWs false t

/-- The agent's `cleanInput`: lowercase, trim, strip characters outside the
math/word set, collapse whitespace — in exactly that order. -/
def cleanInput (s : String) : String :=
  ⟨collapseWs false ((trimChars (s.data.map Char.toLower)).filter allowedChar)⟩

/-- Substring test, JS `String.prototype.includes` on character lists. -/
def hasSubAux (p : List Char) : List Char → Bool
  | [] => p.isPrefixOf []
  | c :: t => p.isPrefixOf (c :: t) || hasSubAux p t

/-- JS `s.includes(pat)`. -/
def strIncludes (s pat : String) : Bool :=
  hasSubAux pat.data s.data

/-- Lowercase a string (JS `toLowerCase`, ASCII). -/
def lowerStr (s : String) : String :=
  ⟨s.data.map Char.toLower⟩

/-! ### Tokenizer (the `natural` WordTokenizer: maximal word-character runs) -/

/-- Split into maximal `\w` runs; `cur` is the run being accumulated. -/
def splitTokens (cur : List Char) : List Char → List String
  | [] => if cur = [] then [] else [⟨cur⟩]
  | c :: t =>
    if isWordChar c then splitTokens (cur ++ [c]) t
    else if cur = [] then splitTokens [] t
    else ⟨cur⟩ :: splitTokens [] t

/-- The agent's `this.tokenizer.tokenize`. -/
def tokenize (s : String) : List String :=
  splitTokens [] s.data

/-! ### `ans` substitution (JS `replace(/\bans\b/g, String(lastAnswer))`) -/

/-- Emit a finished word run, replacing the exact run `ans`. -/
def substFlush (rep cur : List Char) : List Char :=
  if cur = ['a', 'n', 's'] then rep else cur

/-- Walk the string, accumulating word runs in `cur`; every maximal word run
equal to `ans` (i.e. every `\bans\b` match) is replaced by `rep`. -/
def substGo (rep : List Char) (cur : List Char) : List Char → List Char
  | [] => substFlush rep cur
  | c :: t =>
    if isWordChar c then substGo rep (cur ++ [c]) t
    else substFlush rep cur ++ c :: substGo rep [] t

/-- Replace every `\bans\b` token of `s` by `rep`. -/
def substAns (s rep : String) : String :=
  ⟨substGo rep.data [] s.data⟩

/-! ### Numeric literal extraction (JS regex `-?\d+\.?\d*`, global) -/

/-- Digits-to-number accumulator. -/
def digitsToNat (l : List Char) : ℕ :=
  l.foldl (fun acc c => acc * 10 + (c.toNat - '0'.toNat)) 0

/-- Value of a matched literal: optional sign, integer digits `ds`, optional
fraction digits `fs`; exactly the rational the decimal denotes.  `mkRat` is
used so the construction evaluates inside the kernel. -/
def litToRat (neg : Bool) (ds fs : List Char) : ℚ :=
  let v : ℚ := mkRat (digitsToNat (ds ++ fs)) (10 ^ fs.length)
  if neg then -v else v

/-- Try to match `-?\d+\.?\d*` at the head; returns the value and the rest. -/
def numLitAt (l : List Char) : Option (ℚ × List Char) :=
  let neg := l.head? = some '-'
  let l1 := if neg then l.tail else l
  let ds := l1.takeWhile isDigitChar
  if ds = [] then none
  else
    let l2 := l1.drop ds.length
    if l2.head? = some '.' then
      let fs := l2.tail.takeWhile isDigitChar
      some (litToRat neg ds fs, (l2.tail).drop fs.length)
    else
      some (litToRat neg ds [], l2)

/-- Fuelled scan for all matches (left to right, non-overlapping); fuel
`l.length` always suffices because every step consumes a character. -/
def scanNums : ℕ → List Char → List ℚ
  | 0, _ => []
  | _ + 1, [] => []
  | fuel + 1, c :: t =>
    match numLitAt (c :: t) with
    | some (q, rest) => q :: scanNums fuel rest
    | none => scanNums fuel t

/-- The agent's `extractNumbers`. -/
def extractNumbers (s : String) : List ℚ :=
  scanNums s.data.length s.data

/-! ### Rendering numbers back to text (JS `String(number)`)

The agent interpolates numbers into strings (`ans` substitution, canonical
expressions).  JavaScript prints the shortest decimal that round-trips the
double; the values the claims touch are small terminating decimals, for
which this is the plain decimal form.  We model that exact decimal form,
truncating non-terminating expansions at 20 places (such values only arise
from the uninterpreted external evaluator). -/

/-- Digits of a natural number, most significant first (fuelled). -/
def natDigitsAux : ℕ → ℕ → List Char
  | 0, _ => []
  | fuel + 1, n =>
    if n = 0 then [] else natDigitsAux fuel (n / 10) ++ [Char.ofNat (n % 10 + '0'.toNat)]

/-- Decimal string of a natural number. -/
def natToStr (n : ℕ) : String :=
  if n = 0 then "0" else ⟨natDigitsAux n n⟩

/-- Fraction digits of `r / d` to `fuel` places, truncating. -/
def fracDigitsAux : ℕ → ℕ → ℕ → List Char
  | 0, _, _ => []
  | fuel + 1, r, d =>
    if r = 0 then []
    else Char.ofNat (r * 10 / d % 10 + '0'.toNat) :: fracDigitsAux fuel (r * 10 % d) d

/-- JS `String(q)` for the rationals of the model. -/
def renderNum (q : ℚ) : String :=
  let n := q.num.natAbs
  let d := q.den
  let intPart := natToStr (n / d)
  let fracPart := fracDigitsAux 20 (n % d) d
  let core := if fracPart = [] then intPart else intPart ++ "." ++ ⟨fracPart⟩
  if q.num < 0 then "-" ++ core else core

/-- Render a list of numbers `join(', ')`-style, as in the statistics and
unit-conversion canonical expressions. -/
def renderNumList (l : List ℚ) : String :=
  match l with
  | [] => ""
  | [q] => renderNum q
  | q :: t => renderNum q ++ ", " ++ renderNumList t

end CalcAgent

namespace CalcAgent

/-! ### Keyword tables (transcribed from the constructor, in insertion order) -/

/-- The `mathKeywords` map (word → symbol). -/
def mathKeywords : List (String × String) :=
  [("add", "+"), ("plus", "+"), ("addition", "+"), ("sum", "+"),
   ("subtract", "-"), ("minus", "-"), ("subtraction", "-"), ("difference", "-"),
   ("multiply", "*"), ("times", "*"), ("multiplication", "*"), ("product", "*"),
   ("divide", "/"), ("division", "/"), ("quotient", "/"),
   ("power", "^"), ("exponent", "^"), ("exponentiation", "^"),
   ("sqrt", "sqrt"), ("square root", "sqrt"),
   ("log", "log"), ("logarithm", "log"),
   ("sin", "sin"), ("cos", "cos"), ("tan", "tan"),
   ("pi", "pi"), ("e", "e")]

/-- The `statsKeywords` map (keyword → operation), in insertion order. -/
def statsKeywords : List (String × String) :=
  [("mean", "mean"), ("average", "mean"), ("avg", "mean"),
   ("median", "median"), ("mode", "mode"),
   ("standard deviation", "std"), ("variance", "var"),
   ("sum", "sum"), ("count", "count")]

/-- Keys of `unitKeywords`. -/
def unitKeywordKeys : List String :=
  ["convert", "conversion", "to", "from", "in", "as"]

/-- Keys of `graphKeywords`. -/
def graphKeywordKeys : List String :=
  ["plot", "graph", "chart", "draw", "visualize", "show", "display",
   "function", "equation", "formula", "scatter", "line", "bar", "histogram"]

/-- Trigonometry keywords checked by `containsTrigKeywords`. -/
def trigKeywordList : List String :=
  ["sin", "cos", "tan", "sine", "cosine", "tangent"]

/-- The `numberWords` table (zero through twenty). -/
def numberWords : List (String × ℕ) :=
  [("zero", 0), ("one", 1), ("two", 2), ("three", 3), ("four", 4),
   ("five", 5), ("six", 6), ("seven", 7), ("eight", 8), ("nine", 9),
   ("ten", 10), ("eleven", 11), ("twelve", 12), ("thirteen", 13),
   ("fourteen", 14), ("fifteen", 15), ("sixteen", 16), ("seventeen", 17),
   ("eighteen", 18), ("nineteen", 19), ("twenty", 20)]

/-! ### Unit-conversion tables (`this.unitConversions`, in insertion order)

The temperature entries map to unit-name strings, not factors, and are
dispatched to `convertTemperature`; the other categories are linear factor
tables.  `unitKeyTable` lists every category's keys in order (used by the
substring scans); `linearFactors` gives the factor table of the linear
categories.  Factors are written with `mkRat` so that table lookups reduce
in the kernel; each value is exactly the source's decimal literal. -/

/-- Ordered keys of every category of `unitConversions`. -/
def unitKeyTable : List (String × List String) :=
  [("length",
    ["mm", "millimeter", "millimeters", "cm", "centimeter", "centimeters",
     "m", "meter", "meters", "km", "kilometer", "kilometers",
     "in", "inch", "inches", "ft", "foot", "feet",
     "yd", "yard", "yards", "mi", "mile", "miles"]),
   ("weight",
    ["mg", "milligram", "milligrams", "g", "gram", "grams",
     "kg", "kilogram", "kilograms", "oz", "ounce", "ounces",
     "lb", "pound", "pounds", "ton", "metric ton", "tonne"]),
   ("temperature",
    ["c", "celsius", "°c", "f", "fahrenheit", "°f", "k", "kelvin"]),
   ("area",
    ["mm²", "cm²", "m²", "km²", "in²", "ft²", "yd²", "acre", "hectare"]),
   ("volume",
    ["ml", "milliliter", "milliliters", "l", "liter", "liters",
     "gal", "gallon", "gallons", "qt", "quart", "quarts",
     "pt", "pint", "pints", "cup", "cups",
     "fl oz", "fluid ounce", "fluid ounces"]),
   ("time",
    ["ms", "millisecond", "milliseconds", "s", "second", "seconds",
     "min", "minute", "minutes", "h", "hour", "hours",
     "day", "days", "week", "weeks", "month", "months", "year", "years"])]

/-- Linear factor table of the `length` category (metres per unit). -/
def lengthFactors : List (String × ℚ) :=
  [("mm", mkRat 1 1000), ("millimeter", mkRat 1 1000), ("millimeters", mkRat 1 1000),
   ("cm", mkRat 1 100), ("centimeter", mkRat 1 100), ("centimeters", mkRat 1 100),
   ("m", 1), ("meter", 1), ("meters", 1),
   ("km", 1000), ("kilometer", 1000), ("kilometers", 1000),
   ("in", mkRat 254 10000), ("inch", mkRat 254 10000), ("inches", mkRat 254 10000),
   ("ft", mkRat 3048 10000), ("foot", mkRat 3048 10000), ("feet", mkRat 3048 10000),
   ("yd", mkRat 9144 10000), ("yard", mkRat 9144 10000), ("yards", mkRat 9144 10000),
   ("mi", mkRat 1609344 1000), ("mile", mkRat 1609344 1000), ("miles", mkRat 1609344 1000)]

/-- Linear factor table of the `weight` category (grams per unit). -/
def weightFactors : List (String × ℚ) :=
  [("mg", mkRat 1 1000), ("milligram", mkRat 1 1000), ("milligrams", mkRat 1 1000),
   ("g", 1), ("gram", 1), ("grams", 1),
   ("kg", 1000), ("kilogram", 1000), ("kilograms", 1000),
   ("oz", mkRat 283495 10000), ("ounce", mkRat 283495 10000), ("ounces", mkRat 283495 10000),
   ("lb", mkRat 453592 1000), ("pound", mkRat 453592 1000), ("pounds", mkRat 453592 1000),
   ("ton", 1000000), ("metric ton", 1000000), ("tonne", 1000000)]

/-- Linear factor table of the `area` category (square metres per unit). -/
def areaFactors : List (String × ℚ) :=
  [("mm²", mkRat 1 1000000), ("cm²", mkRat 1 10000), ("m²", 1), ("km²", 1000000),
   ("in²", mkRat 64516 100000000), ("ft²", mkRat 92903 1000000),
   ("yd²", mkRat 836127 1000000), ("acre", mkRat 404686 100), ("hectare", 10000)]

/-- Linear factor table of the `volume` category (litres per unit). -/
def volumeFactors : List (String × ℚ) :=
  [("ml", mkRat 1 1000), ("milliliter", mkRat 1 1000), ("milliliters", mkRat 1 1000),
   ("l", 1), ("liter", 1), ("liters", 1),
   ("gal", mkRat 378541 100000), ("gallon", mkRat 378541 100000), ("gallons", mkRat 378541 100000),
   ("qt", mkRat 946353 1000000), ("quart", mkRat 946353 1000000), ("quarts", mkRat 946353 1000000),
   ("pt", mkRat 473176 1000000), ("pint", mkRat 473176 1000000), ("pints", mkRat 473176 1000000),
   ("cup", mkRat 236588 1000000), ("cups", mkRat 236588 1000000),
   ("fl oz", mkRat 295735 10000000), ("fluid ounce", mkRat 295735 10000000),
   ("fluid ounces", mkRat 295735 10000000)]

/-- Linear factor table of the `time` category (seconds per unit). -/
def timeFactors : List (String × ℚ) :=
  [("ms", mkRat 1 1000), ("millisecond", mkRat 1 1000), ("milliseconds", mkRat 1 1000),
   ("s", 1), ("second", 1), ("seconds", 1),
   ("min", 60), ("minute", 60), ("minutes", 60),
   ("h", 3600), ("hour", 3600), ("hours", 3600),
   ("day", 86400), ("days", 86400),
   ("week", 604800), ("weeks", 604800),
   ("month", 2629746), ("months", 2629746),
   ("year", 31556952), ("years", 31556952)]

/-- Factor table of a linear category (`this.unitConversions[category]` for
categories whose values are numbers). -/
def linearFactors (category : String) : Option (List (String × ℚ)) :=
  if category = "length" then some lengthFactors
  else if category = "weight" then some weightFactors
  else if category = "area" then some areaFactors
  else if category = "volume" then some volumeFactors
  else if category = "time" then some timeFactors
  else none

/-! ### Routing predicates -/

/-- The agent's `isNumber`: `!isNaN(parseFloat(t)) && isFinite(t)`.  Tokens
are `\w` runs, so the finite-`Number` forms are digit runs and the
scientific shape `digits e digits`. -/
def isNumber (t : String) : Bool :=
  t.data ≠ [] &&
    (t.data.all isDigitChar ||
      (let ds := t.data.takeWhile isDigitChar
       let rest := t.data.drop ds.length
       ds ≠ [] && rest.head? = some 'e' && rest.tail ≠ [] && rest.tail.all isDigitChar))

/-- The agent's `isNumberWord`. -/
def isNumberWord (t : String) : Bool :=
  (numberWords.lookup t).isSome

/-- The agent's `wordToNumber`; note the JS `numberWords[word] || word`
quirk: the value `0` is falsy, so `zero` is returned as the word itself. -/
def wordToNumber (t : String) : String :=
  match numberWords.lookup t with
  | some n => if n = 0 then t else natToStr n
  | none => t

/-- The agent's `containsStatsKeywords`. -/
def containsStatsKeywords (s : String) : Bool :=
  statsKeywords.any (fun kv => strIncludes s kv.1)

/-- The agent's `containsTrigKeywords`. -/
def containsTrigKeywords (s : String) : Bool :=
  trigKeywordList.any (fun k => strIncludes s k)

/-- The agent's `containsGraphKeywords`. -/
def containsGraphKeywords (s : String) : Bool :=
  graphKeywordKeys.any (fun k => strIncludes s k)

/-- The agent's `containsUnitNames` (note the `toLowerCase` on the input). -/
def containsUnitNames (s : String) : Bool :=
  unitKeyTable.any (fun cat => cat.2.any (fun u => strIncludes (lowerStr s) u))

/-- The agent's `containsUnitKeywords`. -/
def containsUnitKeywords (s : String) : Bool :=
  unitKeywordKeys.any (fun k => strIncludes s k) || containsUnitNames s

/-- The agent's `isNaturalLanguage`: graphing keywords short-circuit, else
letters present and no arithmetic symbol. -/
def isNaturalLanguage (s : String) : Bool :=
  if containsGraphKeywords s then true
  else s.data.any isAlphaChar && !(s.data.any isMathSymbolChar)

/-- The agent's `detectStatsType`: first matching keyword, default `mean`. -/
def detectStatsType (s : String) : String :=
  match statsKeywords.find? (fun kv => strIncludes s kv.1) with
  | some kv => kv.2
  | none => "mean"

/-- Trigonometric function names. -/
inductive TrigFn where
  | sin | cos | tan
  deriving DecidableEq, Repr

/-- Name string of a trig function. -/
def trigName : TrigFn → String
  | .sin => "sin"
  | .cos => "cos"
  | .tan => "tan"

/-- The agent's `detectTrigFunction`: sin, then cos, then tan, default sin. -/
def detectTrigFunction (s : String) : TrigFn :=
  if strIncludes s "sin" || strIncludes s "sine" then .sin
  else if strIncludes s "cos" || strIncludes s "cosine" then .cos
  else if strIncludes s "tan" || strIncludes s "tangent" then .tan
  else .sin

/-- The agent's `detectOperationType` for literal expressions. -/
def detectOperationType (s : String) : String :=
  if strIncludes s "sin" || strIncludes s "cos" || strIncludes s "tan" then "trigonometry"
  else if strIncludes s "log" || strIncludes s "ln" then "logarithm"
  else if strIncludes s "sqrt" || strIncludes s "√" then "square root"
  else if strIncludes s "^" || strIncludes s "**" then "exponentiation"
  else "arithmetic"

end CalcAgent

namespace CalcAgent

/-! ### Statistics and trigonometry extractors

The extractor records carry the `result` field the source computes with
mathjs (`math.mean`, `math.sin(math.unit(angle,'deg'))`, ...).  `calculate`
reads only `expression` and `operationType` from them; the mathjs trig and
std values are therefore kept symbolic (`trigDeg`, `stdOf`), while mean,
median and sum are exact rationals. -/

/-- Value computed inside an extractor. -/
inductive ExtValue where
  | num (q : ℚ)
  | trigDeg (fn : TrigFn) (angle : ℚ)
  | stdOf (data : List ℚ)
  deriving DecidableEq

/-- Result of `parseNaturalLanguage` and its statistics/trig sub-parsers. -/
structure NLParsed where
  expression : String
  operationType : String
  result : Option ExtValue
  deriving DecidableEq

/-- Insertion into a sorted list (ascending). -/
def insertSorted (q : ℚ) : List ℚ → List ℚ
  | [] => [q]
  | a :: t => if q ≤ a then q :: a :: t else a :: insertSorted q t

/-- Ascending sort (mathjs sorts numerically before taking the median). -/
def sortRats (l : List ℚ) : List ℚ :=
  l.foldr insertSorted []

/-- mathjs `mean`. -/
def statMean (l : List ℚ) : ℚ :=
  l.sum / l.length

/-- mathjs `median`: middle of the sorted list, or the mean of the two
middle elements. -/
def statMedian (l : List ℚ) : ℚ :=
  let s := sortRats l
  let n := l.length
  if n % 2 = 1 then s.getD (n / 2) 0
  else (s.getD (n / 2 - 1) 0 + s.getD (n / 2) 0) / 2

/-- The agent's `parseStatisticsRequest`.  mathjs `mean`/`median`/`std`
throw on an empty operand list (modelled error text); `sum` of an empty
list is `0`. -/
def parseStatisticsRequest (s : String) : Except String NLParsed :=
  let numbers := extractNumbers s
  let statsType := detectStatsType s
  let mkOut : ExtValue → Except String NLParsed := fun r =>
    .ok { expression := statsType ++ "(" ++ renderNumList numbers ++ ")",
          operationType := "statistics", result := some r }
  if statsType = "median" then
    if numbers = [] then .error "Cannot calculate median of an empty array"
    else mkOut (.num (statMedian numbers))
  else if statsType = "std" then
    if numbers = [] then .error "Cannot calculate std of an empty array"
    else mkOut (.stdOf numbers)
  else if statsType = "sum" then mkOut (.num numbers.sum)
  else -- `mean` and the default branch (`mode`, `var`, `count`) both take the mean
    if numbers = [] then .error "Cannot calculate mean of an empty array"
    else mkOut (.num (statMean numbers))

/-- The agent's `parseTrigonometryRequest`: first extracted number is the
angle; with no number the source passes `undefined` to `math.unit`, which
throws (modelled error text). -/
def parseTrigonometryRequest (s : String) : Except String NLParsed :=
  match extractNumbers s with
  | [] => .error "Unexpected type of argument in function unit"
  | a :: _ =>
    let fn := detectTrigFunction s
    .ok { expression := trigName fn ++ "(" ++ renderNum a ++ ")",
          operationType := "trigonometry",
          result := some (.trigDeg fn a) }

/-! ### Arithmetic natural-language parsing -/

/-- Contribution of one token: numbers pass through, operation words map to
their symbol, `and`/`with` are skipped entirely (JS `continue`, which also
skips the space step), number words become digits, anything else is
dropped; a space is appended whenever the next token is numeric. -/
def arithStep (t : String) (next : Option String) : String :=
  let sp : String := match next with
    | some t2 => if isNumber t2 then " " else ""
    | none => ""
  if isNumber t then t ++ sp
  else
    match mathKeywords.lookup t with
    | some sym => sym ++ sp
    | none =>
      if t = "and" || t = "with" then ""
      else if isNumberWord t then wordToNumber t ++ sp
      else sp

/-- Fold `arithStep` over the token list. -/
def arithExprAux : List String → String
  | [] => ""
  | t :: rest => arithStep t rest.head? ++ arithExprAux rest

/-- The agent's `parseNaturalLanguage`: statistics keywords first, then
trigonometry keywords, else the arithmetic token walk. -/
def parseNaturalLanguage (s : String) : Except String NLParsed :=
  if containsStatsKeywords s then parseStatisticsRequest s
  else if containsTrigKeywords s then parseTrigonometryRequest s
  else .ok { expression := arithExprAux (tokenize s),
             operationType := "arithmetic", result := none }

/-! ### Unit extraction and conversion -/

/-- Mutable state of the `extractUnits` scanning loops. -/
structure UnitScanState where
  fromUnit : Option String
  toUnit : Option String
  category : Option String
  deriving DecidableEq

/-- Inner key loop of the no-separator scan: first match fixes `fromUnit`
and the category (scan continues), second match fixes `toUnit` and breaks. -/
def scanKeysNoSep (inp : String) (cat : String) : UnitScanState → List String → UnitScanState
  | st, [] => st
  | st, u :: us =>
    if strIncludes inp u then
      match st.fromUnit with
      | none => scanKeysNoSep inp cat { st with fromUnit := some u, category := some cat } us
      | some _ =>
        match st.toUnit with
        | none => { st with toUnit := some u }
        | some _ => scanKeysNoSep inp cat st us
    else scanKeysNoSep inp cat st us

/-- Outer category loop of the no-separator scan (breaks once `toUnit` is
found).  Note that `toUnit` may come from a different category than
`fromUnit`; the recorded category is always `fromUnit`'s. -/
def scanCatsNoSep (inp : String) : UnitScanState → List (String × List String) → UnitScanState
  | st, [] => st
  | st, (cat, keys) :: cs =>
    let st' := scanKeysNoSep inp cat st keys
    if st'.toUnit.isSome then st' else scanCatsNoSep inp st' cs

/-- Separator branch: first unit-table key contained in the text before the
separator, with its category. -/
def findFromUnit (before : String) : List (String × List String) → Option (String × String)
  | [] => none
  | (cat, keys) :: cs =>
    match keys.find? (fun u => strIncludes before u) with
    | some u => some (u, cat)
    | none => findFromUnit before cs

/-- Separator branch: first key of `fromUnit`'s category contained in the
text after the separator (`unitConversions[category] || {}`). -/
def findToUnit (after : String) (category : Option String) : Option String :=
  match category with
  | none => none
  | some c =>
    match unitKeyTable.lookup c with
    | some keys => keys.find? (fun u => strIncludes after u)
    | none => none

/-- The agent's `extractUnits`, returning `(fromUnit, toUnit, category)`. -/
def extractUnits (s : String) : Option String × Option String × Option String :=
  let tokens := tokenize (lowerStr s)
  match tokens.findIdx? (fun t => t = "to" || t = "in" || t = "as") with
  | none =>
    let st := scanCatsNoSep (lowerStr s) ⟨none, none, none⟩ unitKeyTable
    (st.fromUnit, st.toUnit, st.category)
  | some toIndex =>
    let beforeTo := String.intercalate " " (tokens.take toIndex)
    let afterTo := String.intercalate " " (tokens.drop (toIndex + 1))
    match findFromUnit beforeTo unitKeyTable with
    | some (u, cat) => (some u, findToUnit afterTo (some cat), some cat)
    | none => (none, findToUnit afterTo none, none)

/-- The agent's `convertTemperature`: pivot through Celsius. -/
def convertTemperature (value : ℚ) (fromUnit toUnit : String) : Except String ℚ :=
  let fr := lowerStr fromUnit
  let tu := lowerStr toUnit
  match (if fr = "celsius" || fr = "c" || fr = "°c" then some value
         else if fr = "fahrenheit" || fr = "f" || fr = "°f" then some ((value - 32) * 5 / 9)
         else if fr = "kelvin" || fr = "k" then some (value - 273.15)
         else none) with
  | none => .error ("Unsupported temperature unit: " ++ fromUnit)
  | some celsius =>
    if tu = "celsius" || tu = "c" || tu = "°c" then .ok celsius
    else if tu = "fahrenheit" || tu = "f" || tu = "°f" then .ok (celsius * 9 / 5 + 32)
    else if tu = "kelvin" || tu = "k" then .ok (celsius + 273.15)
    else .error ("Unsupported temperature unit: " ++ toUnit)

/-- The agent's `convertUnit`: temperature is special-cased, linear
categories go through the base-unit factor table. -/
def convertUnit (value : ℚ) (fromUnit toUnit category : String) : Except String ℚ :=
  if category = "temperature" then convertTemperature value fromUnit toUnit
  else
    match linearFactors category with
    | none => .error ("Unsupported unit conversion: " ++ fromUnit ++ " to " ++ toUnit)
    | some units =>
      match units.lookup fromUnit, units.lookup toUnit with
      | some f1, some f2 => .ok (value * f1 / f2)
      | _, _ => .error ("Unsupported unit conversion: " ++ fromUnit ++ " to " ++ toUnit)

/-- Parsed unit-conversion request. -/
structure UnitParsed where
  expression : String
  operationType : String
  result : ℚ
  fromUnit : String
  toUnit : String
  category : String
  deriving DecidableEq

/-- The agent's `parseUnitConversion`. -/
def parseUnitConversion (s : String) : Except String UnitParsed :=
  match extractNumbers s with
  | [] => .error "No number found for unit conversion"
  | value :: _ =>
    match extractUnits s with
    | (some fromU, some toU, cat) => do
      let category := cat.getD ""   -- the source always sets category together with fromUnit
      let result ← convertUnit value fromU toU category
      .ok { expression := renderNum value ++ " " ++ fromU ++ " to " ++ toU,
            operationType := "unit conversion", result := result,
            fromUnit := fromU, toUnit := toU, category := category }
    | _ => .error "Could not identify source and target units"

end CalcAgent

namespace CalcAgent

/-! ### Graphing extractors -/

/-- Parsed graphing request (`graphType` is the constructor). -/
inductive GraphParsed where
  | fn (expression : String) (fromV toV : ℚ)
  | scatter (expression : String) (x y : List ℚ)
  | histogram (expression : String) (data : List ℚ)
  deriving DecidableEq

/-- The `expression` field of a parsed graphing request. -/
def graphExprOf : GraphParsed → String
  | .fn e _ _ => e
  | .scatter e _ _ => e
  | .histogram e _ => e

/-- The agent's `detectGraphType`. -/
def detectGraphType (s : String) : String :=
  if strIncludes s "scatter" || strIncludes s "points" then "scatter"
  else if strIncludes s "histogram" || strIncludes s "distribution" then "histogram"
  else if strIncludes s "function" || strIncludes s "equation" || strIncludes s "formula" then "function"
  else "function"

/-- JS `array.filter((_, index) => index % 2 === par)` starting at index `i`. -/
def filterByParity (par : ℕ) : ℕ → List ℚ → List ℚ
  | _, [] => []
  | i, a :: t =>
    if i % 2 = par then a :: filterByParity par (i + 1) t
    else filterByParity par (i + 1) t

/-- The agent's `parseScatterPlot`: needs at least 4 numeric literals, then
splits them by index parity into x and y sequences. -/
def parseScatterPlot (s : String) : Except String GraphParsed :=
  let numbers := extractNumbers s
  if numbers.length < 4 then
    .error "Scatter plot requires at least 2 data points (4 numbers)"
  else
    let x := filterByParity 0 0 numbers
    let y := filterByParity 1 0 numbers
    .ok (.scatter ("scatter plot with " ++ natToStr x.length ++ " points") x y)

/-- The agent's `parseHistogram`: all numeric literals are the sample. -/
def parseHistogram (s : String) : Except String GraphParsed :=
  let numbers := extractNumbers s
  if numbers.length = 0 then .error "Histogram requires data points"
  else .ok (.histogram ("histogram with " ++ natToStr numbers.length ++ " data points") numbers)

/-! ### The function-plot regex

The source matches
`(?:plot|graph|draw|show|display)\s+(.+?)(?:\s+from\s+NUM)?(?:\s+to\s+NUM)?$`
with `NUM` the group `-?\d+(?:\.\d+)?`.  The search below reproduces the
backtracking order of the engine: leftmost start, verb alternation order,
greedy `\s+` (longest whitespace first), lazy body (shortest first, at
least one character, `.` never crosses a newline), optional clauses tried
with-`from` before without, `from`'s number as long as possible. -/

/-- Verb alternatives, in pattern order. -/
def plotVerbs : List String := ["plot", "graph", "draw", "show", "display"]

/-- Exact match of `-?\d+(?:\.\d+)?` over a whole segment. -/
def fpNumExact (l : List Char) : Option ℚ :=
  let neg := l.head? = some '-'
  let l1 := if neg then l.tail else l
  let ds := l1.takeWhile isDigitChar
  if ds = [] then none
  else
    let l2 := l1.drop ds.length
    if l2 = [] then some (litToRat neg ds [])
    else if l2.head? = some '.' then
      let fs := l2.tail.takeWhile isDigitChar
      if fs ≠ [] && l2.tail.drop fs.length = [] then some (litToRat neg ds fs)
      else none
    else none

/-- Exact match of `\s+KW\s+NUM` over a whole segment, returning `NUM`. -/
def clauseExact (kw : List Char) (r : List Char) : Option ℚ :=
  let ws1 := r.takeWhile isSpaceChar
  if ws1 = [] then none
  else
    let r1 := r.drop ws1.length
    if kw.isPrefixOf r1 then
      let r2 := r1.drop kw.length
      let ws2 := r2.takeWhile isSpaceChar
      if ws2 = [] then none else fpNumExact (r2.drop ws2.length)
    else none

/-- Both optional clauses present: split `r` into a `from` clause and a
`to` clause; the engine prefers the longest `from` number, i.e. the latest
split point. -/
def splitFromTo (r : List Char) : Option (ℚ × ℚ) :=
  (List.range (r.length + 1)).reverse.findSome? (fun i =>
    match clauseExact "from".data (r.take i), clauseExact "to".data (r.drop i) with
    | some a, some b => some (a, b)
    | _, _ => none)

/-- Match the two optional clauses against the remainder after the body:
both, `from` only, `to` only, or empty — in the engine's order. -/
def matchClauses (r : List Char) : Option (Option ℚ × Option ℚ) :=
  match splitFromTo r with
  | some ab => some (some ab.1, some ab.2)
  | none =>
    match clauseExact "from".data r with
    | some a => some (some a, none)
    | none =>
      match clauseExact "to".data r with
      | some b => some (none, some b)
      | none => if r = [] then some (none, none) else none

/-- Search after a verb: greedy `\s+`, then the lazy body. -/
def fpAfterVerb (r : List Char) : Option (List Char × Option ℚ × Option ℚ) :=
  let maxWs := (r.takeWhile isSpaceChar).length
  (List.range maxWs).findSome? (fun d =>
    let r2 := r.drop (maxWs - d)
    (List.range r2.length).findSome? (fun k =>
      let body := r2.take (k + 1)
      if body.all (fun c => c ≠ '\n') then
        (matchClauses (r2.drop (k + 1))).map (fun ft => (body, ft))
      else none))

/-- Try the verb alternatives at one start position. -/
def fpAtStart (rest : List Char) : Option (List Char × Option ℚ × Option ℚ) :=
  plotVerbs.findSome? (fun v =>
    if v.data.isPrefixOf rest then fpAfterVerb (rest.drop v.length) else none)

/-- Leftmost-start search of the whole pattern. -/
def fpSearch (l : List Char) : Option (List Char × Option ℚ × Option ℚ) :=
  (List.range (l.length + 1)).findSome? (fun i => fpAtStart (l.drop i))

/-- The agent's `parseFunctionPlot`: captured body is trimmed, missing
clauses default to `from = -10`, `to = 10`. -/
def parseFunctionPlot (s : String) : Except String GraphParsed :=
  match fpSearch s.data with
  | none => .error "Could not extract function expression"
  | some (body, fOpt, tOpt) =>
    .ok (.fn ⟨trimChars body⟩ (fOpt.getD (-10)) (tOpt.getD 10))

/-- The agent's `parseGraphingRequest` (the extracted numbers are computed
and unused in the source; the dispatch is all that matters). -/
def parseGraphingRequest (s : String) : Except String GraphParsed :=
  let g := detectGraphType s
  if g = "function" then parseFunctionPlot s
  else if g = "scatter" then parseScatterPlot s
  else if g = "histogram" then parseHistogram s
  else .error "Unsupported graph type"

/-! ### Histogram bins -/

/-- JS `Math.min(...data)` (0 for the empty list, which the callers
exclude). -/
def listMin : List ℚ → ℚ
  | [] => 0
  | v :: t => t.foldl min v

/-- JS `Math.max(...data)`. -/
def listMax : List ℚ → ℚ
  | [] => 0
  | v :: t => t.foldl max v

/-- `Math.ceil(Math.sqrt(n))` for natural `n`. -/
def ceilSqrt (n : ℕ) : ℕ :=
  if Nat.sqrt n * Nat.sqrt n = n then Nat.sqrt n else Nat.sqrt n + 1

/-- `Math.min(10, Math.ceil(Math.sqrt(len)))`. -/
def numBins (len : ℕ) : ℕ :=
  min 10 (ceilSqrt len)

/-- JS `toFixed(1)` (round to one decimal, modelled as round-half-up). -/
def jsToFixed1 (q : ℚ) : String :=
  let n10 : ℤ := ⌊q * 10 + 1 / 2⌋
  let m := n10.natAbs
  (if n10 < 0 then "-" else "") ++ natToStr (m / 10) ++ "." ++ natToStr (m % 10)

/-- Membership test of bin `i`: `binStart ≤ v` and strictly `v < binEnd`. -/
def binCountPred (mn w : ℚ) (i : ℕ) (v : ℚ) : Bool :=
  decide (mn + i * w ≤ v) && decide (v < mn + (i + 1) * w)

/-- Output of `createHistogramBins`. -/
structure HistBins where
  labels : List String
  counts : List ℕ
  deriving DecidableEq

/-- The agent's `createHistogramBins`: `numBins` equal-width bins over
`[min, max]`, each counting `binStart ≤ v < binEnd`. -/
def createHistogramBins (data : List ℚ) : HistBins :=
  let mn := listMin data
  let mx := listMax data
  let n := numBins data.length
  let w := (mx - mn) / n
  { labels := (List.range n).map (fun i =>
      jsToFixed1 (mn + i * w) ++ "-" ++ jsToFixed1 (mn + (i + 1) * w)),
    counts := (List.range n).map (fun i => data.countP (binCountPred mn w i)) }

/-! ### External world (mathjs evaluator, chart writing) -/

/-- Value returned by the external evaluator: a finite number or anything
else (unit, matrix, non-finite — everything `typeof ... !== 'number'` or
failing `isFinite`). -/
inductive EvalVal where
  | num (q : ℚ)
  | other
  deriving DecidableEq

/-- Chart data handed to `createPlot`. -/
inductive PlotData where
  | line (x y : List ℚ) (name : String)
  | scatterD (x y : List ℚ) (name : String)
  | histoD (labels : List String) (counts : List ℕ) (name : String)
  deriving DecidableEq

/-- The external collaborators: `math.evaluate`, the `math.compile`
validity check, and the chart-file writer (returning the filepath). -/
structure Ext where
  evalFn : String → Except String EvalVal
  validFn : String → Bool
  plotFn : PlotData → Except String String

/-- JS `expression.replace(/x/g, rep)`: every `x` character is replaced. -/
def replaceX (body rep : List Char) : List Char :=
  (body.map (fun c => if c = 'x' then rep else [c])).flatten

/-- The agent's `generateFunctionData`: 101 samples; throwing or
non-number samples are skipped. -/
def generateFunctionData (ext : Ext) (expression : String) (fromV toV : ℚ) :
    List ℚ × List ℚ :=
  let step := (toV - fromV) / 100
  (List.range 101).foldl
    (fun acc i =>
      let xVal := fromV + i * step
      let evalExpression : String := ⟨replaceX expression.data ('(' :: (renderNum xVal).data ++ [')'])⟩
      match ext.evalFn evalExpression with
      | .ok (.num yVal) => (acc.1 ++ [xVal], acc.2 ++ [yVal])
      | .ok .other => acc
      | .error _ => acc)
    ([], [])

/-- Result of a `generate*Plot` call (`success: true` elided, timestamped
filename replaced by whatever `plotFn` returns). -/
structure PlotGenerated where
  filepath : String
  points : ℕ
  deriving DecidableEq

/-- The agent's `generateFunctionPlot`. -/
def generateFunctionPlot (ext : Ext) (expression : String) (fromV toV : ℚ) :
    Except String PlotGenerated := do
  let xy := generateFunctionData ext expression fromV toV
  let filepath ← ext.plotFn (.line xy.1 xy.2 ("y = " ++ expression))
  .ok { filepath := filepath, points := xy.1.length }

/-- The agent's `generateScatterPlot`. -/
def generateScatterPlot (ext : Ext) (x y : List ℚ) : Except String PlotGenerated := do
  let filepath ← ext.plotFn (.scatterD x y "Data Points")
  .ok { filepath := filepath, points := x.length }

/-- The agent's `generateHistogram`. -/
def generateHistogram (ext : Ext) (data : List ℚ) : Except String PlotGenerated := do
  let bins := createHistogramBins data
  let filepath ← ext.plotFn (.histoD bins.labels bins.counts "Distribution")
  .ok { filepath := filepath, points := data.length }

end CalcAgent

namespace CalcAgent

/-! ### The calculate pipeline -/

/-- Value stored in a success payload's `result` field. -/
inductive ResultVal where
  | num (q : ℚ)
  | other
  | plotRes (p : PlotGenerated)
  deriving DecidableEq

/-- Coerce an evaluator value into a payload value. -/
def evalToResult : EvalVal → ResultVal
  | .num q => .num q
  | .other => .other

/-- The `expression` field of a payload: normally a string, but the JS
`expression.expression || expression` falls back to the whole parsed object
for graphing requests with an empty expression string. -/
inductive ExprRepr where
  | str (s : String)
  | obj (g : GraphParsed)
  deriving DecidableEq

/-- The `additionalData` spread into a graphing success payload. -/
inductive GraphMeta where
  | fnMeta (fromV toV : ℚ)
  | scatterMeta (points : ℕ)
  | histoMeta (dataPoints : ℕ)
  deriving DecidableEq

/-- The value `calculate` returns (timestamp and agent name elided). On
failure only `input` and `error` are present. -/
structure CalcResult where
  success : Bool
  input : String
  expression : Option ExprRepr
  result : Option ResultVal
  operationType : Option String
  error : Option String
  graphMeta : Option GraphMeta
  deriving DecidableEq

/-- A ledger entry (timestamp elided). -/
structure HistoryEntry where
  input : String
  expression : ExprRepr
  operationType : String
  result : ResultVal
  deriving DecidableEq

/-- The agent's mutable memory. -/
structure AgentState where
  history : List HistoryEntry
  lastAnswer : Option ℚ
  deriving DecidableEq

/-- The constructor's `this.historyLimit = 50`. -/
def historyLimit : ℕ := 50

/-- The agent's `addHistoryEntry`: push, then shift once the cap is
exceeded. -/
def addHistoryEntry (history : List HistoryEntry) (entry : HistoryEntry) :
    List HistoryEntry :=
  let h := history ++ [entry]
  if historyLimit < h.length then h.drop 1 else h

/-- The agent's `getHistory`: the `limit` most recent entries, newest
first. -/
def getHistory (history : List HistoryEntry) (limit : ℤ) : List HistoryEntry :=
  if limit ≤ 0 then []
  else ((history.drop (history.length - limit.toNat)).reverse)

/-- The agent's `clearHistory`. -/
def clearHistory (_st : AgentState) : AgentState :=
  { history := [], lastAnswer := none }

/-- JS `expression.expression || expression` for a graphing payload. -/
def payloadExprGraph (g : GraphParsed) : ExprRepr :=
  if graphExprOf g = "" then .obj g else .str (graphExprOf g)

/-- Success payload pieces produced by one pipeline run. -/
structure PipeOut where
  expr : ExprRepr
  opType : String
  result : ResultVal
  meta : Option GraphMeta
  deriving DecidableEq

/-- The agent's `evaluateExpression`: wraps evaluator failures with
`Calculation error:`. -/
def evaluateExpression (ext : Ext) (e : String) : Except String EvalVal :=
  match ext.evalFn e with
  | .ok v => .ok v
  | .error m => .error ("Calculation error: " ++ m)

/-- Everything `calculate` does between cleaning/`ans`-substitution and
assembling the returned payload: classification, extraction, validation
(`isValidExpression`, skipped for graphing), evaluation or plot
generation.  Every JS `throw` on this path is an `Except.error`. -/
def runPipeline (ext : Ext) (s : String) : Except String PipeOut :=
  if isNaturalLanguage s then
    if containsGraphKeywords s then
      match parseGraphingRequest s with
      | .error m => .error m
      | .ok g =>
        match g with
        | .fn body fromV toV =>
          match generateFunctionPlot ext body fromV toV with
          | .error m => .error m
          | .ok p => .ok { expr := payloadExprGraph g, opType := "graphing",
                           result := .plotRes p, meta := some (.fnMeta fromV toV) }
        | .scatter _ x y =>
          match generateScatterPlot ext x y with
          | .error m => .error m
          | .ok p => .ok { expr := payloadExprGraph g, opType := "graphing",
                           result := .plotRes p, meta := some (.scatterMeta x.length) }
        | .histogram _ data =>
          match generateHistogram ext data with
          | .error m => .error m
          | .ok p => .ok { expr := payloadExprGraph g, opType := "graphing",
                           result := .plotRes p, meta := some (.histoMeta data.length) }
    else if containsUnitKeywords s then
      match parseUnitConversion s with
      | .error m => .error m
      | .ok u =>
        if !(ext.validFn u.expression) then .error "Invalid mathematical expression"
        else
          match evaluateExpression ext u.expression with
          | .error m => .error m
          | .ok v => .ok { expr := .str u.expression, opType := "unit conversion",
                           result := evalToResult v, meta := none }
    else
      match parseNaturalLanguage s with
      | .error m => .error m
      | .ok p =>
        if !(ext.validFn p.expression) then .error "Invalid mathematical expression"
        else
          match evaluateExpression ext p.expression with
          | .error m => .error m
          | .ok v => .ok { expr := .str p.expression, opType := p.operationType,
                           result := evalToResult v, meta := none }
  else
    let opType := detectOperationType s
    if !(ext.validFn s) then .error "Invalid mathematical expression"
    else
      match evaluateExpression ext s with
      | .error m => .error m
      | .ok v => .ok { expr := .str s, opType := opType,
                       result := evalToResult v, meta := none }

/-- Cleaning followed by the `ans` substitution (which only runs when a
numeric answer has been recorded). -/
def effectiveInput (st : AgentState) (raw : String) : String :=
  let cleaned := cleanInput raw
  match st.lastAnswer with
  | none => cleaned
  | some r => substAns cleaned (renderNum r)

/-- The uniform failure payload of the top-level catch. -/
def failResult (raw msg : String) : CalcResult :=
  { success := false, input := raw, expression := none, result := none,
    operationType := none, error := some msg, graphMeta := none }

/-- The agent's `calculate`: returns the payload and the updated memory.
On success exactly one ledger entry is appended and `lastAnswer` is set
when the result is a plain number; on failure the state is untouched. -/
def calculate (ext : Ext) (st : AgentState) (raw : String) :
    CalcResult × AgentState :=
  match runPipeline ext (effectiveInput st raw) with
  | .error msg => (failResult raw msg, st)
  | .ok p =>
    let res : CalcResult :=
      { success := true, input := raw, expression := some p.expr,
        result := some p.result, operationType := some p.opType,
        error := none, graphMeta := p.meta }
    let lastAnswer' := match p.result with
      | .num q => some q
      | _ => st.lastAnswer
    (res, { history := addHistoryEntry st.history ⟨raw, p.expr, p.opType, p.result⟩,
            lastAnswer := lastAnswer' })

/-! ### Classification as a function (for the classification claims) -/

/-- Domain routing in `calculate`'s dispatch order. -/
def classifyDomain (s : String) : String :=
  if containsGraphKeywords s then "graphing"
  else if containsUnitKeywords s then "unit conversion"
  else if containsStatsKeywords s then "statistics"
  else if containsTrigKeywords s then "trigonometry"
  else "arithmetic"

/-- Full classification: natural-language flag plus routed domain. -/
def classify (s : String) : Bool × String :=
  (isNaturalLanguage s, classifyDomain s)

end CalcAgent

namespace CalcAgent

deriving instance DecidableEq for Except

/-! ### Concrete instantiations used by the witnesses -/

/-- Render chart data as a string (used as the filepath by the tracing
plot writer below, so that distinct charts give distinct artifacts). -/
def encodePlotData : PlotData → String
  | .line x y name => "line[" ++ renderNumList x ++ "][" ++ renderNumList y ++ "]" ++ name
  | .scatterD x y name => "scatter[" ++ renderNumList x ++ "][" ++ renderNumList y ++ "]" ++ name
  | .histoD _ counts name => "histo[" ++ natToStr counts.length ++ "]" ++ name

/-- A benign external world: every expression compiles and evaluates to 7,
plots always succeed. -/
def extOk : Ext :=
  { evalFn := fun _ => .ok (.num 7), validFn := fun _ => true,
    plotFn := fun _ => .ok "plot.html" }

/-- An external world whose evaluator always throws and whose plot writer
records the chart it was given. -/
def extPlotTrace : Ext :=
  { evalFn := fun _ => .error "eval failure", validFn := fun _ => true,
    plotFn := fun pd => .ok (encodePlotData pd) }

/-- The fresh agent state. -/
def stEmpty : AgentState := ⟨[], none⟩

/-- 51 pairwise distinct ledger entries. -/
def es51 : List HistoryEntry :=
  (List.range 51).map (fun i => ⟨natToStr i, .str "", "", .other⟩)

/-! ### Shape predicates about cleaned text (verification helpers) -/

/-- Shape of whitespace after `collapseWs`: every whitespace character is a
plain `' '`, no two are adjacent, and none starts the text when the flag is
set. -/
def spacedOk : Bool → List Char → Bool
  | _, [] => true
  | prevSp, c :: t =>
    if isSpaceChar c then !prevSp && (c == ' ') && spacedOk true t
    else spacedOk false t

/-- A pattern whose first and last characters are not whitespace (every
keyword the classifier searches for has this shape), so that its occurrence
is unaffected by trimming the searched text. -/
def edgeOk (l : List Char) : Bool :=
  l.head?.all (fun c => !isSpaceChar c) && l.getLast?.all (fun c => !isSpaceChar c)

end CalcAgent

namespace CalcAgent

/-! ## Helper lemmas -/

/-- A natural-language input routed to the unit-conversion extractor whose
extraction throws makes the whole pipeline fail with that message, whatever
the external world does. -/
theorem runPipeline_unit_error (ext : Ext) (s m : String)
    (h1 : isNaturalLanguage s = true) (h2 : containsGraphKeywords s = false)
    (h3 : containsUnitKeywords s = true) (h4 : parseUnitConversion s = .error m) :
    runPipeline ext s = .error m := by
  simp [runPipeline, h1, h2, h3, h4]

/-! ## Claim C1 -/

/-- C1: the spec scenario `"What is 15 plus 27?" → success, 42, arithmetic`
fails on the code.  The volume unit key `l` is a substring of `plus` (and
the time key `s` of `is`), so `containsUnitKeywords` routes the cleaned
input to `parseUnitConversion`, whose `extractUnits` picks `fromUnit = l`,
`toUnit = s`, `category = volume`, and `convertUnit` throws `Unsupported
unit conversion: l to s`.  For every external evaluator and every starting
state, `calculate` returns the failure payload and leaves the state
unchanged. -/
theorem c1_what_is_15_plus_27_fails_unit_hijack (ext : Ext) (st : AgentState) :
    calculate ext st "What is 15 plus 27?" =
      (failResult "What is 15 plus 27?" "Unsupported unit conversion: l to s", st) := by
  have heff : effectiveInput st "What is 15 plus 27?" = "what is 15 plus 27" := by
    obtain ⟨h, la⟩ := st
    cases la with
    | none => rfl
    | some r => rfl
  have hpipe : runPipeline ext "what is 15 plus 27" =
      .error "Unsupported unit conversion: l to s" :=
    runPipeline_unit_error ext _ _ (by decide) (by decide) (by decide) (by decide)
  unfold calculate
  rw [heff, hpipe]

/-! ## Claim C2 -/

/-- C2: for `"convert 32 fahrenheit to celsius"` the extractor does not
produce `toUnit = celsius` and result `0`: scanning the text before the
separator against the unit table hits the `c` inside the word `convert`
first, so both units come out as `c` (category temperature), the conversion
computes `32` (c → c), and the canonical expression handed on to the
evaluator is the meaningless `32 c to c`.  (`calculate` then discards the
computed `32` and evaluates that expression, so the user never receives the
conversion either.) -/
theorem c2_convert_fahrenheit_extracts_c_to_c :
    parseUnitConversion (cleanInput "convert 32 fahrenheit to celsius") =
      .ok { expression := "32 c to c", operationType := "unit conversion", result := 32,
            fromUnit := "c", toUnit := "c", category := "temperature" } ∧
    extractUnits (cleanInput "convert 32 fahrenheit to celsius") =
      (some "c", some "c", some "temperature") ∧
    ("c" : String) ≠ "celsius" ∧ (32 : ℚ) ≠ 0 :=
  ⟨by decide, by decide, by decide, by decide⟩

/-! ## Claim C3 -/

/-- C3: whenever the text contains at least one numeric literal, the
trigonometry extractor returns the symbolic value `trigDeg fn angle` — the
mathjs call `math[fn](math.unit(angle, 'deg'))`, i.e. the detected function
applied to the FIRST extracted number read in degrees — together with the
canonical expression `fn(angle)`; the detected function is one of sin, cos,
tan, and sin is the default when no trig keyword occurs. -/
theorem c3_trig_extractor_first_number_degrees (s : String) (a : ℚ) (l : List ℚ)
    (h : extractNumbers s = a :: l) :
    (parseTrigonometryRequest s =
      .ok { expression := trigName (detectTrigFunction s) ++ "(" ++ renderNum a ++ ")",
            operationType := "trigonometry",
            result := some (.trigDeg (detectTrigFunction s) a) }) ∧
    (detectTrigFunction s = .sin ∨ detectTrigFunction s = .cos ∨ detectTrigFunction s = .tan) ∧
    ((strIncludes s "sin" = false ∧ strIncludes s "sine" = false ∧
      strIncludes s "cos" = false ∧ strIncludes s "cosine" = false ∧
      strIncludes s "tan" = false ∧ strIncludes s "tangent" = false) →
      detectTrigFunction s = .sin) := by
  refine ⟨?_, ?_, ?_⟩
  · unfold parseTrigonometryRequest
    rw [h]
  · unfold detectTrigFunction
    split_ifs <;> simp
  · rintro ⟨h1, h2, h3, h4, h5, h6⟩
    simp [detectTrigFunction, h1, h2, h3, h4, h5, h6]

/-- Witness for C3 at the input `tan 45`. -/
theorem c3_witness :
    extractNumbers "tan 45" = 45 :: [] ∧
    parseTrigonometryRequest "tan 45" =
      .ok { expression := trigName (detectTrigFunction "tan 45") ++ "(" ++ renderNum 45 ++ ")",
            operationType := "trigonometry",
            result := some (.trigDeg (detectTrigFunction "tan 45") 45) } :=
  ⟨by decide, (c3_trig_extractor_first_number_degrees "tan 45" 45 [] (by decide)).1⟩

/-! ## Claim C4 -/

/-- C4: `calculate` is total (the embedding returns a value on every input
— every internal `throw` is an `Except.error` consumed here), and whenever
it fails the payload carries an error message while the ledger and
`lastAnswer` are exactly the ones the call started with (failed requests
are never recorded); on success there is no error field. -/
theorem c4_failure_uniform_and_state_untouched (ext : Ext) (st : AgentState) (input : String) :
    ((calculate ext st input).1.success = false →
      (calculate ext st input).1.error.isSome = true ∧
      (calculate ext st input).2 = st) ∧
    ((calculate ext st input).1.success = true → (calculate ext st input).1.error = none) := by
  unfold calculate
  cases h : runPipeline ext (effectiveInput st input) <;> simp [failResult]

/-- Witness for C4: `convert 5` fails (no target unit) and the state is
untouched. -/
theorem c4_witness :
    (calculate extOk stEmpty "convert 5").1.error.isSome = true ∧
    (calculate extOk stEmpty "convert 5").2 = stEmpty :=
  (c4_failure_uniform_and_state_untouched extOk stEmpty "convert 5").1 (by decide)

/-! ## Claim C8 -/

/-- Index-parity shift invariance of the scatter split. -/
theorem filterByParity_mod (par : ℕ) :
    ∀ (l : List ℚ) (i j : ℕ), i % 2 = j % 2 →
      filterByParity par i l = filterByParity par j l := by
  intro l
  induction l with
  | nil => intro i j _; rfl
  | cons a t ih =>
    intro i j hij
    unfold filterByParity
    rw [hij, ih (i + 1) (j + 1) (by omega)]

/-- Swapping the starting index parity swaps the two split halves. -/
theorem filterByParity_cross :
    ∀ l : List ℚ, filterByParity 0 1 l = filterByParity 1 0 l ∧
      filterByParity 1 1 l = filterByParity 0 0 l := by
  intro l
  induction l with
  | nil => exact ⟨rfl, rfl⟩
  | cons a t ih =>
    constructor
    · show filterByParity 0 2 t = filterByParity 1 1 t
      rw [filterByParity_mod 0 t 2 0 (by omega), ih.2]
    · show a :: filterByParity 1 2 t = a :: filterByParity 0 1 t
      rw [filterByParity_mod 1 t 2 0 (by omega), ih.1]

/-- Even-position split, cons step. -/
theorem fp00_cons (a : ℚ) (t : List ℚ) :
    filterByParity 0 0 (a :: t) = a :: filterByParity 1 0 t := by
  show a :: filterByParity 0 1 t = a :: filterByParity 1 0 t
  rw [(filterByParity_cross t).1]

/-- Odd-position split, cons step. -/
theorem fp10_cons (a : ℚ) (t : List ℚ) :
    filterByParity 1 0 (a :: t) = filterByParity 0 0 t := by
  show filterByParity 1 1 t = filterByParity 0 0 t
  exact (filterByParity_cross t).2

/-- Lengths of the two split halves. -/
theorem fp_lengths (l : List ℚ) :
    (filterByParity 0 0 l).length = (l.length + 1) / 2 ∧
    (filterByParity 1 0 l).length = l.length / 2 := by
  induction l with
  | nil => exact ⟨rfl, rfl⟩
  | cons a t ih =>
    constructor
    · rw [fp00_cons, List.length_cons, ih.2, List.length_cons]
      omega
    · rw [fp10_cons, ih.1, List.length_cons]

/-- The split halves read the original literals at indices `2i` and
`2i + 1`: left-to-right order is preserved and literals alternate x,y. -/
theorem fp_get (l : List ℚ) :
    (∀ i, (filterByParity 0 0 l).get? i = l.get? (2 * i)) ∧
    (∀ i, (filterByParity 1 0 l).get? i = l.get? (2 * i + 1)) := by
  induction l with
  | nil => constructor <;> intro i <;> rfl
  | cons a t ih =>
    constructor
    · intro i
      rw [fp00_cons]
      cases i with
      | zero => rfl
      | succ j =>
        have h2 : 2 * (j + 1) = (2 * j + 1) + 1 := by ring
        rw [List.get?_cons_succ, ih.2 j, h2, List.get?_cons_succ]
    · intro i
      rw [fp10_cons, ih.1 i, List.get?_cons_succ]

/-- C8 counterexample: the input `scatter 1 2 3 4 5` has an odd count (5)
of numeric literals, yet the extractor accepts it (only counts below 4 are
rejected), producing 3 x-values and 2 y-values — the claim's "any smaller
or odd count is an extraction error" is false. -/
theorem c8_counterexample_odd_count_accepted :
    extractNumbers "scatter 1 2 3 4 5" = [1, 2, 3, 4, 5] ∧
    parseScatterPlot "scatter 1 2 3 4 5" =
      .ok (.scatter "scatter plot with 3 points" [1, 3, 5] [2, 4]) :=
  ⟨by decide, by decide⟩

/-- C8 amended: the scatter extractor rejects exactly the inputs with
fewer than 4 numeric literals; any count `n ≥ 4` (odd counts included) is
accepted, and the series are the literals at even positions (`⌈n/2⌉` of
them) and at odd positions (`⌊n/2⌋`), preserving left-to-right order — so
for `2k` literals there are exactly `k` x-values and `k` y-values. -/
theorem c8_amended_scatter_split (s : String) :
    ((extractNumbers s).length < 4 →
      parseScatterPlot s = .error "Scatter plot requires at least 2 data points (4 numbers)") ∧
    (4 ≤ (extractNumbers s).length →
      ∃ x y, parseScatterPlot s =
          .ok (.scatter ("scatter plot with " ++ natToStr x.length ++ " points") x y) ∧
        x.length = ((extractNumbers s).length + 1) / 2 ∧
        y.length = (extractNumbers s).length / 2 ∧
        (∀ i, x.get? i = (extractNumbers s).get? (2 * i)) ∧
        (∀ i, y.get? i = (extractNumbers s).get? (2 * i + 1))) := by
  constructor
  · intro h
    unfold parseScatterPlot
    rw [if_pos h]
  · intro h
    refine ⟨filterByParity 0 0 (extractNumbers s), filterByParity 1 0 (extractNumbers s),
      ?_, (fp_lengths _).1, (fp_lengths _).2, (fp_get _).1, (fp_get _).2⟩
    unfold parseScatterPlot
    rw [if_neg (by omega)]

/-- Witness for the amended C8 at six literals (k = 3). -/
theorem c8_witness :
    ∃ x y, parseScatterPlot "scatter 1 2 3 4 5 6" =
        .ok (.scatter ("scatter plot with " ++ natToStr x.length ++ " points") x y) ∧
      x.length = ((extractNumbers "scatter 1 2 3 4 5 6").length + 1) / 2 ∧
      y.length = (extractNumbers "scatter 1 2 3 4 5 6").length / 2 ∧
      (∀ i, x.get? i = (extractNumbers "scatter 1 2 3 4 5 6").get? (2 * i)) ∧
      (∀ i, y.get? i = (extractNumbers "scatter 1 2 3 4 5 6").get? (2 * i + 1)) :=
  (c8_amended_scatter_split "scatter 1 2 3 4 5 6").2 (by decide)

end CalcAgent

namespace CalcAgent

/-! ## Claim C5 -/

/-- Pushing one entry keeps the ledger within the cap. -/
theorem addHistoryEntry_le (h : List HistoryEntry) (e : HistoryEntry)
    (hle : h.length ≤ 50) : (addHistoryEntry h e).length ≤ 50 := by
  show (if 50 < (h ++ [e]).length then (h ++ [e]).drop 1 else h ++ [e]).length ≤ 50
  split_ifs with hc
  · simp only [List.length_drop, List.length_append, List.length_singleton]
    omega
  · simp only [List.length_append, List.length_singleton]
    simp only [List.length_append, List.length_singleton] at hc
    omega

/-- One push is "keep the last 50 of `h ++ [e]`". -/
theorem addHistoryEntry_drop (h : List HistoryEntry) (e : HistoryEntry)
    (hle : h.length ≤ 50) :
    addHistoryEntry h e = (h ++ [e]).drop ((h ++ [e]).length - 50) := by
  show (if 50 < (h ++ [e]).length then (h ++ [e]).drop 1 else h ++ [e]) =
    (h ++ [e]).drop ((h ++ [e]).length - 50)
  split_ifs with hc
  · congr 1
    simp only [List.length_append, List.length_singleton] at hc ⊢
    omega
  · simp only [List.length_append, List.length_singleton] at hc ⊢
    have h0 : h.length + 1 - 50 = 0 := by omega
    rw [h0, List.drop_zero]

/-- Keeping the last `n` is idempotent across appends. -/
theorem drop_absorb {α : Type} (n : ℕ) (A B : List α) :
    (A.drop (A.length - n) ++ B).drop ((A.drop (A.length - n) ++ B).length - n) =
    (A ++ B).drop ((A ++ B).length - n) := by
  rcases le_or_lt A.length n with hA | hA
  · have h0 : A.length - n = 0 := by omega
    rw [h0, List.drop_zero]
  · have hlen : (A.drop (A.length - n)).length = n := by
      rw [List.length_drop]; omega
    rw [List.drop_append_eq_append_drop, List.drop_append_eq_append_drop,
      List.drop_drop, List.length_append, List.length_append, hlen]
    congr 2 <;> omega

/-- Replaying any request sequence keeps exactly the last 50 entries. -/
theorem foldl_addHistory (es : List HistoryEntry) : ∀ acc : List HistoryEntry,
    acc.length ≤ 50 →
    List.foldl addHistoryEntry acc es = (acc ++ es).drop ((acc ++ es).length - 50) := by
  induction es with
  | nil =>
    intro acc h
    have h0 : (acc ++ []).length - 50 = 0 := by simp; omega
    rw [h0, List.drop_zero, List.append_nil]
    rfl
  | cons e es ih =>
    intro acc hacc
    rw [List.foldl_cons, ih (addHistoryEntry acc e) (addHistoryEntry_le acc e hacc),
      addHistoryEntry_drop acc e hacc, drop_absorb 50 (acc ++ [e]) es]
    simp [List.append_assoc]

end CalcAgent

namespace CalcAgent

/-- C5: the ledger is capped at 50: one push keeps the length within the
cap, every successful `calculate` appends exactly one entry through
`addHistoryEntry`, and replaying N > 50 successful appends from an empty
ledger leaves precisely the most recent 50 (FIFO: the first N − 50 are
dropped), so the oldest entry is gone. -/
theorem c5_history_capped_fifo :
    (∀ (h : List HistoryEntry) (e : HistoryEntry), h.length ≤ 50 →
       (addHistoryEntry h e).length ≤ 50) ∧
    (∀ (ext : Ext) (st : AgentState) (input : String),
       (calculate ext st input).1.success = true →
       ∃ e, (calculate ext st input).2.history = addHistoryEntry st.history e) ∧
    (∀ es : List HistoryEntry, 50 < es.length →
       List.foldl addHistoryEntry [] es = es.drop (es.length - 50) ∧
       (List.foldl addHistoryEntry [] es).length = 50 ∧
       (es.Nodup → ∀ e, es.head? = some e → e ∉ List.foldl addHistoryEntry [] es)) := by
  refine ⟨addHistoryEntry_le, ?_, ?_⟩
  · intro ext st input hsucc
    unfold calculate at hsucc ⊢
    rcases hp : runPipeline ext (effectiveInput st input) with m | p
    · rw [hp] at hsucc
      simp [failResult] at hsucc
    · exact ⟨⟨input, p.expr, p.opType, p.result⟩, rfl⟩
  · intro es hlen
    have hfold := foldl_addHistory es [] (by simp)
    rw [List.nil_append] at hfold
    refine ⟨hfold, ?_, ?_⟩
    · rw [hfold, List.length_drop]
      omega
    · intro hnd e he hmem
      rw [hfold] at hmem
      rcases es with _ | ⟨a, t⟩
      · simp at he
      · simp at he
        subst he
        obtain ⟨k, hk⟩ : ∃ k, (a :: t).length - 50 = k + 1 := by
          refine ⟨(a :: t).length - 51, ?_⟩
          simp at hlen ⊢
          omega
        rw [hk] at hmem
        simp only [List.drop_succ_cons] at hmem
        have hsub : List.Sublist (t.drop k) t := List.drop_sublist k t
        have hat : a ∈ t := hsub.mem hmem
        simp only [List.nodup_cons] at hnd
        exact hnd.1 hat

/-- Witness for C5: 51 distinct entries leave exactly 50, the oldest gone;
one successful request appends one entry. -/
theorem c5_witness :
    ((addHistoryEntry [] ⟨"", .str "", "", .other⟩).length ≤ 50) ∧
    (∃ e, (calculate extOk stEmpty "2 2").2.history = addHistoryEntry stEmpty.history e) ∧
    (List.foldl addHistoryEntry [] es51).length = 50 ∧
    (∀ e, es51.head? = some e → e ∉ List.foldl addHistoryEntry [] es51) := by
  refine ⟨c5_history_capped_fifo.1 [] _ (by decide),
    c5_history_capped_fifo.2.1 extOk stEmpty "2 2" (by decide), ?_, ?_⟩
  · exact (c5_history_capped_fifo.2.2 es51 (by decide)).2.1
  · exact (c5_history_capped_fifo.2.2 es51 (by decide)).2.2 (by decide)

end CalcAgent

namespace CalcAgent

/-! ## Claim C7 -/

/-- Association-list lookup only returns listed values. -/
theorem lookup_pos (l : List (String × ℚ)) (hpos : ∀ p ∈ l, 0 < p.2) (u : String) (f : ℚ)
    (h : l.lookup u = some f) : 0 < f := by
  induction l with
  | nil => simp [List.lookup] at h
  | cons p t ih =>
    obtain ⟨k, b⟩ := p
    simp only [List.lookup] at h
    split at h
    · cases h
      exact hpos (k, f) (by simp)
    · exact ih (fun q hq => hpos q (by simp [hq])) h

/-- Every factor in the linear conversion tables is positive. -/
theorem linearFactors_pos (cat : String) (tbl : List (String × ℚ))
    (hcat : linearFactors cat = some tbl) (u : String) (f : ℚ)
    (h : tbl.lookup u = some f) : 0 < f := by
  unfold linearFactors at hcat
  split_ifs at hcat <;>
    (cases hcat; exact lookup_pos _ (by intro p hp; fin_cases hp <;> decide) u f h)

/-- The Celsius-pivot conversion inverts exactly for every pair of
temperature-table unit names. -/
theorem convertTemperature_roundtrip (u1 u2 : String)
    (h1 : u1 ∈ ["c", "celsius", "°c", "f", "fahrenheit", "°f", "k", "kelvin"])
    (h2 : u2 ∈ ["c", "celsius", "°c", "f", "fahrenheit", "°f", "k", "kelvin"])
    (v : ℚ) :
    ∃ w, convertTemperature v u1 u2 = .ok w ∧ convertTemperature w u2 u1 = .ok v := by
  fin_cases h1 <;> fin_cases h2 <;>
    exact ⟨_, rfl, congrArg Except.ok (by ring)⟩

end CalcAgent

namespace CalcAgent

/-- Linear conversion computes `value * factor(from) / factor(to)`. -/
theorem convertUnit_linear (value : ℚ) (u1 u2 cat : String)
    (tbl : List (String × ℚ)) (f1 f2 : ℚ)
    (hne : cat ≠ "temperature") (hcat : linearFactors cat = some tbl)
    (h1 : tbl.lookup u1 = some f1) (h2 : tbl.lookup u2 = some f2) :
    convertUnit value u1 u2 cat = .ok (value * f1 / f2) := by
  unfold convertUnit
  rw [if_neg hne, hcat]
  show (match tbl.lookup u1, tbl.lookup u2 with
        | some g1, some g2 => Except.ok (value * g1 / g2)
        | _, _ => Except.error ("Unsupported unit conversion: " ++ u1 ++ " to " ++ u2)) =
    Except.ok (value * f1 / f2)
  rw [h1, h2]

/-- C7: converting and converting back is the identity — exactly, in the
rational model, hence a fortiori within any relative tolerance: for any two
units of one linear category (length, weight, area, volume, time) the round
trip returns `v` itself, and likewise for any two units of the temperature
category through the Celsius pivot (the listed names being precisely the
temperature table's keys). -/
theorem c7_roundtrip_conversion :
    (∀ (cat : String) (tbl : List (String × ℚ)) (u1 u2 : String) (f1 f2 : ℚ) (v : ℚ),
       linearFactors cat = some tbl →
       tbl.lookup u1 = some f1 → tbl.lookup u2 = some f2 →
       convertUnit v u1 u2 cat = .ok (v * f1 / f2) ∧
       convertUnit (v * f1 / f2) u2 u1 cat = .ok v) ∧
    (∀ u1 u2 : String,
       u1 ∈ ["c", "celsius", "°c", "f", "fahrenheit", "°f", "k", "kelvin"] →
       u2 ∈ ["c", "celsius", "°c", "f", "fahrenheit", "°f", "k", "kelvin"] →
       ∀ v : ℚ, ∃ w, convertUnit v u1 u2 "temperature" = .ok w ∧
         convertUnit w u2 u1 "temperature" = .ok v) ∧
    unitKeyTable.lookup "temperature" =
      some ["c", "celsius", "°c", "f", "fahrenheit", "°f", "k", "kelvin"] := by
  refine ⟨?_, ?_, by decide⟩
  · intro cat tbl u1 u2 f1 f2 v hcat h1 h2
    have hne : cat ≠ "temperature" := by
      intro hct
      rw [hct] at hcat
      have hnone : linearFactors "temperature" = none := rfl
      rw [hnone] at hcat
      exact Option.noConfusion hcat
    have hf1 : f1 ≠ 0 := ne_of_gt (linearFactors_pos cat tbl hcat u1 f1 h1)
    have hf2 : f2 ≠ 0 := ne_of_gt (linearFactors_pos cat tbl hcat u2 f2 h2)
    refine ⟨convertUnit_linear v u1 u2 cat tbl f1 f2 hne hcat h1 h2, ?_⟩
    rw [convertUnit_linear (v * f1 / f2) u2 u1 cat tbl f2 f1 hne hcat h2 h1]
    congr 1
    field_simp
  · intro u1 u2 h1 h2 v
    obtain ⟨w, hw1, hw2⟩ := convertTemperature_roundtrip u1 u2 h1 h2 v
    refine ⟨w, ?_, ?_⟩
    · unfold convertUnit
      rw [if_pos rfl]
      exact hw1
    · unfold convertUnit
      rw [if_pos rfl]
      exact hw2

/-- Witness for C7: 2 cm → m → cm and 32 °F → °C → °F. -/
theorem c7_witness :
    (convertUnit 2 "cm" "m" "length" = .ok (2 * mkRat 1 100 / 1) ∧
     convertUnit (2 * mkRat 1 100 / 1) "m" "cm" "length" = .ok 2) ∧
    (∃ w, convertUnit 32 "fahrenheit" "celsius" "temperature" = .ok w ∧
          convertUnit w "celsius" "fahrenheit" "temperature" = .ok 32) :=
  ⟨c7_roundtrip_conversion.1 "length" lengthFactors "cm" "m" (mkRat 1 100) 1 2 rfl
     (by decide) (by decide),
   c7_roundtrip_conversion.2.1 "fahrenheit" "celsius" (by decide) (by decide) 32⟩

end CalcAgent

namespace CalcAgent

/-! ## Claim C10 -/

/-- Folded minimum bounds the seed and every element from below. -/
theorem foldl_min_le (t : List ℚ) : ∀ v : ℚ, t.foldl min v ≤ v ∧ ∀ x ∈ t, t.foldl min v ≤ x := by
  induction t with
  | nil => intro v; simp
  | cons a t ih =>
    intro v
    constructor
    · calc (a :: t).foldl min v = t.foldl min (min v a) := rfl
        _ ≤ min v a := (ih (min v a)).1
        _ ≤ v := min_le_left v a
    · intro x hx
      rcases List.mem_cons.1 hx with h | h
      · subst h
        calc t.foldl min (min v x) ≤ min v x := (ih (min v x)).1
          _ ≤ x := min_le_right v x
      · exact (ih (min v a)).2 x h

/-- Folded maximum bounds the seed and every element from above. -/
theorem le_foldl_max (t : List ℚ) : ∀ v : ℚ, v ≤ t.foldl max v ∧ ∀ x ∈ t, x ≤ t.foldl max v := by
  induction t with
  | nil => intro v; simp
  | cons a t ih =>
    intro v
    constructor
    · calc v ≤ max v a := le_max_left v a
        _ ≤ t.foldl max (max v a) := (ih (max v a)).1
    · intro x hx
      rcases List.mem_cons.1 hx with h | h
      · subst h
        calc x ≤ max v x := le_max_right v x
          _ ≤ t.foldl max (max v x) := (ih (max v x)).1
      · exact (ih (max v a)).2 x h

/-- The sample minimum is at most the sample maximum. -/
theorem listMin_le_listMax (data : List ℚ) (hne : data ≠ []) :
    listMin data ≤ listMax data := by
  rcases data with _ | ⟨v, t⟩
  · exact absurd rfl hne
  · calc listMin (v :: t) = t.foldl min v := rfl
      _ ≤ v := (foldl_min_le t v).1
      _ ≤ t.foldl max v := (le_foldl_max t v).1
      _ = listMax (v :: t) := rfl

/-- At least one bin whenever there is data. -/
theorem numBins_pos (len : ℕ) (h : 1 ≤ len) : 1 ≤ numBins len := by
  unfold numBins ceilSqrt
  split_ifs with hsq
  · simp only [le_min_iff]
    refine ⟨by omega, ?_⟩
    by_contra hz
    have h0 : Nat.sqrt len = 0 := by omega
    rw [h0] at hsq
    omega
  · omega

/-- Sums of mapped pointwise additions split. -/
theorem sum_map_add (f g : ℕ → ℕ) (l : List ℕ) :
    (l.map (fun i => f i + g i)).sum = (l.map f).sum + (l.map g).sum := by
  induction l with
  | nil => rfl
  | cons a t ih => simp [ih]; omega

/-- A sum of indicator terms vanishes when the predicate never holds. -/
theorem sum_map_zero_of (P : ℕ → Bool) (l : List ℕ) (h : ∀ i ∈ l, P i = false) :
    (l.map (fun i => if P i then 1 else 0)).sum = 0 := by
  induction l with
  | nil => rfl
  | cons a t ih =>
    simp only [List.map_cons, List.sum_cons, h a (by simp)]
    simp [ih (fun i hi => h i (by simp [hi]))]

/-- A sum of indicator terms over distinct indices is at most one when the
predicate holds for at most one index. -/
theorem sum_map_ite_le_one (P : ℕ → Bool) (l : List ℕ) (hnd : l.Nodup)
    (hu : ∀ i j, P i = true → P j = true → i = j) :
    (l.map (fun i => if P i then 1 else 0)).sum ≤ 1 := by
  induction l with
  | nil => simp
  | cons a t ih =>
    simp only [List.nodup_cons] at hnd
    simp only [List.map_cons, List.sum_cons]
    by_cases ha : P a = true
    · rw [if_pos ha]
      have hz : (t.map (fun i => if P i then 1 else 0)).sum = 0 := by
        apply sum_map_zero_of
        intro i hi
        by_contra hne
        have : P i = true := by
          cases hPi : P i
          · exact absurd hPi hne
          · rfl
        exact hnd.1 (hu i a this ha ▸ hi)
      omega
    · rw [if_neg ha]
      simp only [Nat.zero_add]
      exact ih hnd.2

end CalcAgent

namespace CalcAgent

/-- The half-open bins are pairwise disjoint: a value lies in at most one. -/
theorem binCountPred_unique (mn w v : ℚ) (i j : ℕ)
    (hi : binCountPred mn w i v = true) (hj : binCountPred mn w j v = true) : i = j := by
  simp only [binCountPred, Bool.and_eq_true, decide_eq_true_eq] at hi hj
  obtain ⟨hi1, hi2⟩ := hi
  obtain ⟨hj1, hj2⟩ := hj
  have hexp : ((i : ℚ) + 1) * w = (i : ℚ) * w + w := by ring
  have hw : 0 < w := by linarith
  by_contra hne
  rcases Nat.lt_or_ge i j with hlt | hge
  · have hc : ((i : ℚ) + 1) ≤ (j : ℚ) := by exact_mod_cast hlt
    have hmul : ((i : ℚ) + 1) * w ≤ (j : ℚ) * w :=
      mul_le_mul_of_nonneg_right hc (le_of_lt hw)
    linarith
  · have hlt' : j < i := by omega
    have hc : ((j : ℚ) + 1) ≤ (i : ℚ) := by exact_mod_cast hlt'
    have hmul : ((j : ℚ) + 1) * w ≤ (i : ℚ) * w :=
      mul_le_mul_of_nonneg_right hc (le_of_lt hw)
    linarith

/-- Summed bin counts plus the points at the excluded maximum never exceed
the sample size. -/
theorem counts_sum_le (mn w mx : ℚ) (n : ℕ)
    (hmx : ∀ i < n, binCountPred mn w i mx = false) (data : List ℚ) :
    ((List.range n).map (fun i => data.countP (binCountPred mn w i))).sum +
      data.countP (fun v => decide (v = mx)) ≤ data.length := by
  induction data with
  | nil => simp
  | cons v d ih =>
    rw [List.length_cons]
    have hmap : (List.range n).map (fun i => (v :: d).countP (binCountPred mn w i)) =
        (List.range n).map (fun i =>
          d.countP (binCountPred mn w i) + (if binCountPred mn w i v then 1 else 0)) := by
      apply List.map_congr_left
      intro i _
      rw [List.countP_cons]
    rw [hmap, sum_map_add (fun i => d.countP (binCountPred mn w i))
      (fun i => if binCountPred mn w i v then 1 else 0), List.countP_cons]
    by_cases hv : v = mx
    · have hz : ((List.range n).map (fun i => if binCountPred mn w i v then 1 else 0)).sum = 0 := by
        apply sum_map_zero_of
        intro i hi
        rw [hv]
        exact hmx i (List.mem_range.1 hi)
      have hvt : (decide (v = mx)) = true := by simp [hv]
      rw [hz, hvt]
      simp only [if_true]
      omega
    · have hle1 : ((List.range n).map (fun i => if binCountPred mn w i v then 1 else 0)).sum ≤ 1 :=
        sum_map_ite_le_one _ _ (List.nodup_range n) (fun i j => binCountPred_unique mn w v i j)
      have hvf : (decide (v = mx)) = false := by simp [hv]
      rw [hvf]
      simp only [Bool.false_eq_true, if_false]
      omega

end CalcAgent

namespace CalcAgent

/-- C10: for nonempty data the histogram counts a value into bin `i`
exactly when `binStart ≤ v < binEnd` (strict upper bound, the predicate the
counts are built from), the last bin's upper edge `min + numBins·width`
equals the data maximum, every point equal to the maximum falls in no bin,
and hence the bin counts sum to at most the sample size minus the number of
points attaining the maximum. -/
theorem c10_histogram_strict_bins (data : List ℚ) (hne : data ≠ []) :
    ((createHistogramBins data).counts =
      (List.range (numBins data.length)).map (fun i =>
        data.countP (binCountPred (listMin data)
          ((listMax data - listMin data) / (numBins data.length : ℚ)) i))) ∧
    (listMin data + (numBins data.length : ℚ) *
        ((listMax data - listMin data) / (numBins data.length : ℚ)) = listMax data) ∧
    (∀ i < numBins data.length,
      binCountPred (listMin data) ((listMax data - listMin data) / (numBins data.length : ℚ))
        i (listMax data) = false) ∧
    ((createHistogramBins data).counts.sum +
      data.countP (fun v => decide (v = listMax data)) ≤ data.length) := by
  have hlen : 1 ≤ data.length := List.length_pos.2 hne
  have hn : 1 ≤ numBins data.length := numBins_pos data.length hlen
  have hnq : ((numBins data.length : ℚ)) ≠ 0 := by
    have : numBins data.length ≠ 0 := by omega
    exact_mod_cast this
  have hedge : listMin data + (numBins data.length : ℚ) *
      ((listMax data - listMin data) / (numBins data.length : ℚ)) = listMax data := by
    field_simp
  have hwpos : 0 ≤ (listMax data - listMin data) / (numBins data.length : ℚ) := by
    apply div_nonneg
    · linarith [listMin_le_listMax data hne]
    · positivity
  have hmx : ∀ i < numBins data.length,
      binCountPred (listMin data) ((listMax data - listMin data) / (numBins data.length : ℚ))
        i (listMax data) = false := by
    intro i hi
    by_contra hbt
    rw [Bool.not_eq_false] at hbt
    simp only [binCountPred, Bool.and_eq_true, decide_eq_true_eq] at hbt
    obtain ⟨h1, h2⟩ := hbt
    have hc : ((i : ℚ) + 1) ≤ (numBins data.length : ℚ) := by exact_mod_cast hi
    have hmul : ((i : ℚ) + 1) * ((listMax data - listMin data) / (numBins data.length : ℚ)) ≤
        (numBins data.length : ℚ) * ((listMax data - listMin data) / (numBins data.length : ℚ)) :=
      mul_le_mul_of_nonneg_right hc hwpos
    linarith
  refine ⟨rfl, hedge, hmx, ?_⟩
  exact counts_sum_le _ _ _ _ hmx data

/-- Witness for C10 on the sample `[1, 2, 3]`. -/
theorem c10_witness :
    (createHistogramBins [1, 2, 3]).counts.sum +
      [(1 : ℚ), 2, 3].countP (fun v => decide (v = listMax [1, 2, 3])) ≤
      ([(1 : ℚ), 2, 3]).length :=
  (c10_histogram_strict_bins [1, 2, 3] (by decide)).2.2.2

end CalcAgent

namespace CalcAgent

/-! ## Claim C6 -/

/-- Appending entries that agree except in the echoed raw input gives the
same ledger up to that field. -/
theorem map_addHistoryEntry (f : HistoryEntry → ExprRepr × String × ResultVal)
    (h : List HistoryEntry) (e1 e2 : HistoryEntry) (hf : f e1 = f e2) :
    (addHistoryEntry h e1).map f = (addHistoryEntry h e2).map f := by
  show (if 50 < (h ++ [e1]).length then (h ++ [e1]).drop 1 else h ++ [e1]).map f =
    (if 50 < (h ++ [e2]).length then (h ++ [e2]).drop 1 else h ++ [e2]).map f
  have hlen : (h ++ [e1]).length = (h ++ [e2]).length := by
    simp [List.length_append]
  rw [hlen]
  split_ifs with hc
  · rw [List.map_drop, List.map_drop, List.map_append, List.map_append]
    simp [hf]
  · rw [List.map_append, List.map_append]
    simp [hf]

/-- C6 counterexample, refuting both readings of "textually replaced
before classification". (1) Replacement on the raw text: for `ans?1` the
raw token `ans` is replaced, giving `42?1`, which evaluates successfully —
but the agent itself normalizes `ans?1` to the single word `ans1`, never
substitutes, and fails in the unit-conversion extractor. (2) Replacement on
the normalized text: for `plot ans to 5 ?` normalization leaves a trailing
space, the substituted text `plot 42 to 5 ` is not normalization-stable,
and re-running `calculate` on it trims that space, changing the captured
plot body (`42 to 5`, range −10..10 versus `42`, range −10..5), so the
plotted artifacts differ. -/
theorem c6_counterexample :
    ((calculate extOk ⟨[], some 42⟩ "ans?1").1.success = false ∧
     (calculate extOk ⟨[], some 42⟩ (substAns "ans?1" (renderNum 42))).1.success = true) ∧
    ((calculate extPlotTrace ⟨[], some 42⟩ "plot ans to 5 ?").1.result ≠
     (calculate extPlotTrace ⟨[], none⟩
        (substAns (cleanInput "plot ans to 5 ?") (renderNum 42))).1.result) :=
  ⟨⟨by decide, by decide⟩, by decide⟩

/-- C6 amended: when the substituted normalized input is itself
normalization-stable, a `calculate` call with recorded answer `r` on `x`
behaves exactly — same success flag, expression, result, operation type,
error, graph data; the echoed raw input is the only difference — like a
fresh call (no recorded answer, under which `ans` is left as literal text)
on the normalized input with every `ans` token replaced by `String(r)`;
the ledgers agree except for that echoed field, and a numeric result sets
both `lastAnswer` slots to the same value. -/
theorem c6_amended_ans_equiv (ext : Ext) (h : List HistoryEntry) (x : String) (r : ℚ)
    (hstable : cleanInput (substAns (cleanInput x) (renderNum r)) =
      substAns (cleanInput x) (renderNum r)) :
    ((calculate ext ⟨h, some r⟩ x).1 =
      { (calculate ext ⟨h, none⟩ (substAns (cleanInput x) (renderNum r))).1 with
        input := x }) ∧
    ((calculate ext ⟨h, some r⟩ x).2.history.map
        (fun e => (e.expression, e.operationType, e.result)) =
      (calculate ext ⟨h, none⟩ (substAns (cleanInput x) (renderNum r))).2.history.map
        (fun e => (e.expression, e.operationType, e.result))) ∧
    (∀ q, (calculate ext ⟨h, some r⟩ x).1.result = some (.num q) →
      (calculate ext ⟨h, some r⟩ x).2.lastAnswer = some q ∧
      (calculate ext ⟨h, none⟩ (substAns (cleanInput x) (renderNum r))).2.lastAnswer = some q) ∧
    (∀ st : AgentState, st.lastAnswer = none → effectiveInput st x = cleanInput x) := by
  have heL : effectiveInput ⟨h, some r⟩ x = substAns (cleanInput x) (renderNum r) := rfl
  have heR : effectiveInput ⟨h, none⟩ (substAns (cleanInput x) (renderNum r)) =
      substAns (cleanInput x) (renderNum r) := hstable
  unfold calculate
  rw [heL, heR]
  rcases hp : runPipeline ext (substAns (cleanInput x) (renderNum r)) with m | p
  · refine ⟨rfl, rfl, ?_, ?_⟩
    · intro q hq
      exact absurd hq (by simp [failResult])
    · intro st hst
      unfold effectiveInput
      rw [hst]
  · refine ⟨rfl, ?_, ?_, ?_⟩
    · exact map_addHistoryEntry _ h _ _ rfl
    · intro q hq
      simp only [Option.some_inj] at hq
      constructor
      · show (match p.result with
              | ResultVal.num q1 => some q1
              | _ => (⟨h, some r⟩ : AgentState).lastAnswer) = some q
        rw [hq]
      · show (match p.result with
              | ResultVal.num q1 => some q1
              | _ => (⟨h, none⟩ : AgentState).lastAnswer) = some q
        rw [hq]
    · intro st hst
      unfold effectiveInput
      rw [hst]

/-- Witness for the amended C6 at `ans plus 1` with recorded answer 42. -/
theorem c6_witness :
    (calculate extOk ⟨[], some 42⟩ "ans plus 1").1 =
      { (calculate extOk ⟨[], none⟩
          (substAns (cleanInput "ans plus 1") (renderNum 42))).1 with
        input := "ans plus 1" } :=
  (c6_amended_ans_equiv extOk [] "ans plus 1" 42 (by decide)).1

end CalcAgent

namespace CalcAgent

/-! ## Claim C9 -/

theorem toNat_ofNat_valid (n : ℕ) (h : n.isValidChar) : (Char.ofNat n).toNat = n := by
  unfold Char.ofNat
  rw [dif_pos h]
  rfl

theorem charToNat_inj {c d : Char} (h : c.toNat = d.toNat) : c = d := by
  have hc := Char.ofNat_toNat c
  rw [h, Char.ofNat_toNat] at hc
  exact hc.symm

theorem toLower_toNat (c : Char) :
    (Char.toLower c).toNat = if c.toNat ≥ 65 ∧ c.toNat ≤ 90 then c.toNat + 32 else c.toNat := by
  show (if c.toNat ≥ 65 ∧ c.toNat ≤ 90 then Char.ofNat (c.toNat + 32) else c).toNat =
    if c.toNat ≥ 65 ∧ c.toNat ≤ 90 then c.toNat + 32 else c.toNat
  split_ifs with h
  · exact toNat_ofNat_valid (c.toNat + 32) (Or.inl (by omega))
  · rfl

theorem toLower_idem (c : Char) : Char.toLower (Char.toLower c) = Char.toLower c := by
  apply charToNat_inj
  rw [toLower_toNat, toLower_toNat]
  split_ifs <;> omega

theorem spaceChar_cases (c : Char) (h : isSpaceChar c = true) :
    c = ' ' ∨ c = '\t' ∨ c = '\n' ∨ c = '\r' := by
  simp only [isSpaceChar, Bool.or_eq_true, beq_iff_eq] at h
  tauto

theorem isPrefixOf_append_space (p : List Char) (c : Char) (hc : isSpaceChar c = true)
    (hlast : ∀ d, p.getLast? = some d → isSpaceChar d = false) :
    ∀ X : List Char, p.isPrefixOf (X ++ [c]) = p.isPrefixOf X := by
  induction p with
  | nil => intro X; simp [List.isPrefixOf]
  | cons a p' ih =>
    intro X
    cases X with
    | nil =>
      rcases p' with _ | ⟨b, p''⟩
      · have ha : isSpaceChar a = false := hlast a (by simp)
        have hne : (a == c) = false := by
          apply beq_eq_false_iff_ne.2
          intro he
          rw [he, hc] at ha
          exact Bool.noConfusion ha
        simp [List.isPrefixOf, hne]
      · simp [List.isPrefixOf]
    | cons x X' =>
      rcases hp' : p' with _ | ⟨b, p''⟩
      · simp [List.isPrefixOf]
      · have hlast' : ∀ d, p'.getLast? = some d → isSpaceChar d = false := by
          intro d hd
          apply hlast
          rw [hp'] at hd ⊢
          rw [List.getLast?_cons_cons]
          exact hd
        rw [← hp']
        have := ih hlast' X'
        simp [List.isPrefixOf, this]

theorem hasSub_nil_pat : ∀ t : List Char, hasSubAux [] t = true := by
  intro t
  induction t with
  | nil => rfl
  | cons c t ih => simp [hasSubAux, List.isPrefixOf, ih]

theorem hasSub_snoc_space (p : List Char) (c : Char) (hc : isSpaceChar c = true)
    (hlast : ∀ d, p.getLast? = some d → isSpaceChar d = false) :
    ∀ X : List Char, hasSubAux p (X ++ [c]) = hasSubAux p X := by
  intro X
  induction X with
  | nil =>
    show hasSubAux p [c] = hasSubAux p []
    show (p.isPrefixOf [c] || hasSubAux p []) = hasSubAux p []
    have h := isPrefixOf_append_space p c hc hlast []
    simp only [List.nil_append] at h
    rw [h]
    show (p.isPrefixOf [] || p.isPrefixOf []) = p.isPrefixOf []
    exact Bool.or_self _
  | cons x X' ih =>
    show (p.isPrefixOf (x :: (X' ++ [c])) || hasSubAux p (X' ++ [c])) =
      (p.isPrefixOf (x :: X') || hasSubAux p X')
    have h := isPrefixOf_append_space p c hc hlast (x :: X')
    simp only [List.cons_append] at h
    rw [h, ih]

theorem hasSub_append_allspace (p : List Char)
    (hlast : ∀ d, p.getLast? = some d → isSpaceChar d = false) :
    ∀ S : List Char, (∀ c ∈ S, isSpaceChar c = true) →
      ∀ X : List Char, hasSubAux p (X ++ S) = hasSubAux p X := by
  intro S
  induction S with
  | nil => intro _ X; rw [List.append_nil]
  | cons c S' ih =>
    intro hS X
    have h1 := ih (fun d hd => hS d (List.mem_cons_of_mem c hd)) (X ++ [c])
    rw [List.append_assoc, List.singleton_append] at h1
    rw [h1, hasSub_snoc_space p c (hS c (List.mem_cons_self c S')) hlast X]

theorem dropTrailing_decomp (l : List Char) :
    ∃ S, l = dropTrailingSp l ++ S ∧ ∀ c ∈ S, isSpaceChar c = true := by
  induction l with
  | nil => exact ⟨[], rfl, by simp⟩
  | cons c t ih =>
    obtain ⟨S, hS, hall⟩ := ih
    show ∃ S', c :: t =
      (if (decide (dropTrailingSp t = []) && isSpaceChar c) = true then [] else
        c :: dropTrailingSp t) ++ S' ∧ ∀ d ∈ S', isSpaceChar d = true
    by_cases hc : (decide (dropTrailingSp t = []) && isSpaceChar c) = true
    · rw [if_pos hc]
      refine ⟨c :: t, rfl, ?_⟩
      intro d hd
      simp only [Bool.and_eq_true, decide_eq_true_eq] at hc
      rcases List.mem_cons.1 hd with h | h
      · subst h
        exact hc.2
      · have ht : dropTrailingSp t = [] := hc.1
        rw [ht, List.nil_append] at hS
        rw [← hS] at hall
        exact hall d h
    · rw [if_neg hc]
      exact ⟨S, by rw [List.cons_append, ← hS], hall⟩

theorem mem_dropTrailing {c : Char} {l : List Char} (h : c ∈ dropTrailingSp l) : c ∈ l := by
  obtain ⟨S, hS, _⟩ := dropTrailing_decomp l
  rw [hS]
  exact List.mem_append_left S h

theorem mem_trim {c : Char} {l : List Char} (h : c ∈ trimChars l) : c ∈ l :=
  (List.dropWhile_sublist (fun c => isSpaceChar c)).subset (mem_dropTrailing h)

theorem hasSub_dropTrailing (p : List Char)
    (hlast : ∀ d, p.getLast? = some d → isSpaceChar d = false) (l : List Char) :
    hasSubAux p (dropTrailingSp l) = hasSubAux p l := by
  obtain ⟨S, hS, hall⟩ := dropTrailing_decomp l
  conv_rhs => rw [hS]
  rw [hasSub_append_allspace p hlast S hall (dropTrailingSp l)]

theorem hasSub_cons_space (p : List Char) (c : Char) (t : List Char)
    (hc : isSpaceChar c = true)
    (hhead : ∀ d, p.head? = some d → isSpaceChar d = false) :
    hasSubAux p (c :: t) = hasSubAux p t := by
  show (p.isPrefixOf (c :: t) || hasSubAux p t) = hasSubAux p t
  cases p with
  | nil => rw [hasSub_nil_pat]; rfl
  | cons p0 p' =>
    have h0 : isSpaceChar p0 = false := hhead p0 rfl
    have hne : (p0 == c) = false := by
      apply beq_eq_false_iff_ne.2
      intro he
      rw [he, hc] at h0
      exact Bool.noConfusion h0
    show ((p0 == c) && p'.isPrefixOf t || hasSubAux (p0 :: p') t) = hasSubAux (p0 :: p') t
    rw [hne, Bool.false_and, Bool.false_or]

theorem hasSub_dropWhile (p : List Char)
    (hhead : ∀ d, p.head? = some d → isSpaceChar d = false) (l : List Char) :
    hasSubAux p (l.dropWhile (fun c => isSpaceChar c)) = hasSubAux p l := by
  induction l with
  | nil => rfl
  | cons c t ih =>
    by_cases hc : isSpaceChar c = true
    · rw [List.dropWhile_cons, if_pos hc, ih, hasSub_cons_space p c t hc hhead]
    · rw [List.dropWhile_cons, if_neg hc]

theorem edgeOk_head {l : List Char} (h : edgeOk l = true) :
    ∀ d, l.head? = some d → isSpaceChar d = false := by
  intro d hd
  simp only [edgeOk, Bool.and_eq_true] at h
  have h1 := h.1
  rw [hd] at h1
  simpa using h1

theorem edgeOk_last {l : List Char} (h : edgeOk l = true) :
    ∀ d, l.getLast? = some d → isSpaceChar d = false := by
  intro d hd
  simp only [edgeOk, Bool.and_eq_true] at h
  have h1 := h.2
  rw [hd] at h1
  simpa using h1

theorem hasSub_trim (p : List Char) (h : edgeOk p = true) (l : List Char) :
    hasSubAux p (trimChars l) = hasSubAux p l := by
  show hasSubAux p (dropTrailingSp (l.dropWhile (fun c => isSpaceChar c))) = hasSubAux p l
  rw [hasSub_dropTrailing p (edgeOk_last h), hasSub_dropWhile p (edgeOk_head h)]

theorem spacedOk_collapse : ∀ (l : List Char) (b : Bool), spacedOk b (collapseWs b l) = true := by
  intro l
  induction l with
  | nil => intro b; rfl
  | cons c t ih =>
    intro b
    show spacedOk b (if isSpaceChar c then
      (if b then collapseWs true t else ' ' :: collapseWs true t) else c :: collapseWs false t) = true
    by_cases hc : isSpaceChar c = true
    · rw [if_pos hc]
      cases b with
      | true => rw [if_pos rfl]; exact ih true
      | false =>
        rw [if_neg (by simp)]
        show spacedOk false (' ' :: collapseWs true t) = true
        show (if isSpaceChar ' ' then !false && (' ' == ' ') && spacedOk true (collapseWs true t)
          else spacedOk false (collapseWs true t)) = true
        rw [if_pos (by decide)]
        simp only [Bool.not_false, beq_self_eq_true, Bool.true_and]
        exact ih true
    · rw [if_neg hc]
      show (if isSpaceChar c then !b && (c == ' ') && spacedOk true (collapseWs false t)
        else spacedOk false (collapseWs false t)) = true
      rw [if_neg hc]
      exact ih false

theorem collapse_fix : ∀ (l : List Char) (b : Bool), spacedOk b l = true → collapseWs b l = l := by
  intro l
  induction l with
  | nil => intro b _; rfl
  | cons c t ih =>
    intro b h
    show (if isSpaceChar c then
      (if b then collapseWs true t else ' ' :: collapseWs true t) else c :: collapseWs false t) = c :: t
    by_cases hc : isSpaceChar c = true
    · rw [if_pos hc]
      have h' : (!b && (c == ' ') && spacedOk true t) = true := by
        have := h
        rw [show spacedOk b (c :: t) = (if isSpaceChar c then !b && (c == ' ') && spacedOk true t
          else spacedOk false t) from rfl, if_pos hc] at this
        exact this
      simp only [Bool.and_eq_true, Bool.not_eq_true', beq_iff_eq] at h'
      obtain ⟨⟨hb, hcsp⟩, hrest⟩ := h'
      rw [hb, if_neg (by simp), hcsp, ih true hrest]
    · rw [if_neg hc]
      have h' : spacedOk false t = true := by
        have := h
        rw [show spacedOk b (c :: t) = (if isSpaceChar c then !b && (c == ' ') && spacedOk true t
          else spacedOk false t) from rfl, if_neg hc] at this
        exact this
      rw [ih false h']

theorem spacedOk_tail_false {d : Char} {t : List Char} (hd : isSpaceChar d = false)
    {b : Bool} (h : spacedOk b (d :: t) = true) : spacedOk false t = true := by
  rw [show spacedOk b (d :: t) = (if isSpaceChar d then !b && (d == ' ') && spacedOk true t
    else spacedOk false t) from rfl, if_neg (by rw [hd]; exact Bool.false_ne_true)] at h
  exact h

theorem spacedOk_any_head {b : Bool} {t : List Char} (h : spacedOk b t = true) :
    spacedOk false t = true := by
  cases t with
  | nil => rfl
  | cons d t' =>
    by_cases hd : isSpaceChar d = true
    · rw [show spacedOk b (d :: t') = (if isSpaceChar d then !b && (d == ' ') && spacedOk true t'
        else spacedOk false t') from rfl, if_pos hd] at h
      simp only [Bool.and_eq_true] at h
      show (if isSpaceChar d then !false && (d == ' ') && spacedOk true t'
        else spacedOk false t') = true
      rw [if_pos hd]
      simp only [Bool.not_false, Bool.true_and, Bool.and_eq_true]
      exact ⟨h.1.2, h.2⟩
    · have hd' : isSpaceChar d = false := by
        cases hq : isSpaceChar d with
        | false => rfl
        | true => exact absurd hq hd
      have := spacedOk_tail_false hd' h
      rw [show spacedOk false (d :: t') = (if isSpaceChar d then !false && (d == ' ') && spacedOk true t'
        else spacedOk false t') from rfl, if_neg (by rw [hd']; exact Bool.false_ne_true)]
      exact this

theorem spacedOk_dropWhile {l : List Char} (h : spacedOk false l = true) :
    spacedOk false (l.dropWhile (fun c => isSpaceChar c)) = true := by
  cases l with
  | nil => rfl
  | cons c t =>
    by_cases hc : isSpaceChar c = true
    · rw [List.dropWhile_cons, if_pos hc]
      rw [show spacedOk false (c :: t) = (if isSpaceChar c then !false && (c == ' ') && spacedOk true t
        else spacedOk false t) from rfl, if_pos hc] at h
      simp only [Bool.and_eq_true] at h
      have hsp : spacedOk true t = true := h.2
      cases t with
      | nil => rfl
      | cons d t' =>
        have hd : isSpaceChar d = false := by
          cases hq : isSpaceChar d with
          | false => rfl
          | true =>
            rw [show spacedOk true (d :: t') = (if isSpaceChar d then !true && (d == ' ') && spacedOk true t'
              else spacedOk false t') from rfl, if_pos hq] at hsp
            simp at hsp
        rw [List.dropWhile_cons, if_neg (by rw [hd]; exact Bool.false_ne_true)]
        exact spacedOk_any_head hsp
    · rw [List.dropWhile_cons, if_neg hc]
      exact h

theorem spacedOk_dropTrailing : ∀ (l : List Char) (b : Bool), spacedOk b l = true →
    spacedOk b (dropTrailingSp l) = true := by
  intro l
  induction l with
  | nil => intro b _; rfl
  | cons c t ih =>
    intro b h
    show spacedOk b (if (decide (dropTrailingSp t = []) && isSpaceChar c) = true then []
      else c :: dropTrailingSp t) = true
    by_cases hcond : (decide (dropTrailingSp t = []) && isSpaceChar c) = true
    · rw [if_pos hcond]; rfl
    · rw [if_neg hcond]
      by_cases hc : isSpaceChar c = true
      · rw [show spacedOk b (c :: t) = (if isSpaceChar c then !b && (c == ' ') && spacedOk true t
          else spacedOk false t) from rfl, if_pos hc] at h
        simp only [Bool.and_eq_true] at h
        rw [show spacedOk b (c :: dropTrailingSp t) =
          (if isSpaceChar c then !b && (c == ' ') && spacedOk true (dropTrailingSp t)
            else spacedOk false (dropTrailingSp t)) from rfl, if_pos hc]
        simp only [Bool.and_eq_true]
        exact ⟨h.1, ih true h.2⟩
      · rw [show spacedOk b (c :: t) = (if isSpaceChar c then !b && (c == ' ') && spacedOk true t
          else spacedOk false t) from rfl, if_neg hc] at h
        rw [show spacedOk b (c :: dropTrailingSp t) =
          (if isSpaceChar c then !b && (c == ' ') && spacedOk true (dropTrailingSp t)
            else spacedOk false (dropTrailingSp t)) from rfl, if_neg hc]
        exact ih false h

theorem spacedOk_trim {l : List Char} (h : spacedOk false l = true) :
    spacedOk false (trimChars l) = true :=
  spacedOk_dropTrailing _ false (spacedOk_dropWhile h)

theorem collapse_mem {c : Char} : ∀ {b : Bool} {l : List Char},
    c ∈ collapseWs b l → c = ' ' ∨ c ∈ l := by
  intro b l
  induction l generalizing b with
  | nil => intro h; exact absurd h (List.not_mem_nil c)
  | cons d t ih =>
    intro h
    rw [show collapseWs b (d :: t) = (if isSpaceChar d then
      (if b then collapseWs true t else ' ' :: collapseWs true t)
      else d :: collapseWs false t) from rfl] at h
    by_cases hd : isSpaceChar d = true
    · rw [if_pos hd] at h
      cases b with
      | true =>
        rw [if_pos rfl] at h
        rcases ih h with h1 | h1
        · exact Or.inl h1
        · exact Or.inr (List.mem_cons_of_mem d h1)
      | false =>
        rw [if_neg (by simp)] at h
        rcases List.mem_cons.1 h with h1 | h1
        · exact Or.inl h1
        · rcases ih h1 with h2 | h2
          · exact Or.inl h2
          · exact Or.inr (List.mem_cons_of_mem d h2)
    · rw [if_neg hd] at h
      rcases List.mem_cons.1 h with h1 | h1
      · exact Or.inr (h1 ▸ List.mem_cons_self d t)
      · rcases ih h1 with h2 | h2
        · exact Or.inl h2
        · exact Or.inr (List.mem_cons_of_mem d h2)

theorem map_fix {f : Char → Char} : ∀ {l : List Char}, (∀ c ∈ l, f c = c) → l.map f = l := by
  intro l h
  induction l with
  | nil => rfl
  | cons c t ih =>
    rw [List.map_cons, h c (List.mem_cons_self c t),
      ih (fun d hd => h d (List.mem_cons_of_mem c hd))]

theorem any_hasSub_trim (ks : List String) (h : ∀ k ∈ ks, edgeOk k.data = true)
    (l : List Char) :
    ks.any (fun k => hasSubAux k.data (trimChars l)) = ks.any (fun k => hasSubAux k.data l) := by
  induction ks with
  | nil => rfl
  | cons k ks' ih =>
    simp only [List.any_cons]
    rw [hasSub_trim k.data (h k (List.mem_cons_self k ks')) l,
      ih (fun k' hk' => h k' (List.mem_cons_of_mem k hk'))]

theorem any_fst_hasSub_trim (ks : List (String × String))
    (h : ∀ kv ∈ ks, edgeOk kv.1.data = true) (l : List Char) :
    ks.any (fun kv => hasSubAux kv.1.data (trimChars l)) =
      ks.any (fun kv => hasSubAux kv.1.data l) := by
  induction ks with
  | nil => rfl
  | cons kv ks' ih =>
    simp only [List.any_cons]
    rw [hasSub_trim kv.1.data (h kv (List.mem_cons_self kv ks')) l,
      ih (fun kv' hk' => h kv' (List.mem_cons_of_mem kv hk'))]

theorem any_units_hasSub_trim (tbl : List (String × List String))
    (h : ∀ cat ∈ tbl, ∀ u ∈ cat.2, edgeOk u.data = true) (l : List Char) :
    tbl.any (fun cat => cat.2.any (fun u => hasSubAux u.data (trimChars l))) =
      tbl.any (fun cat => cat.2.any (fun u => hasSubAux u.data l)) := by
  induction tbl with
  | nil => rfl
  | cons cat tbl' ih =>
    simp only [List.any_cons]
    rw [any_hasSub_trim cat.2 (h cat (List.mem_cons_self cat tbl')) l,
      ih (fun cat' hc' => h cat' (List.mem_cons_of_mem cat hc'))]

theorem any_dropWhile_of (q : Char → Bool) (hq : ∀ c, isSpaceChar c = true → q c = false) :
    ∀ l : List Char, (l.dropWhile (fun c => isSpaceChar c)).any q = l.any q := by
  intro l
  induction l with
  | nil => rfl
  | cons c t ih =>
    by_cases hc : isSpaceChar c = true
    · rw [List.dropWhile_cons, if_pos hc, ih, List.any_cons, hq c hc, Bool.false_or]
    · rw [List.dropWhile_cons, if_neg hc]

theorem any_dropTrailing_of (q : Char → Bool) (hq : ∀ c, isSpaceChar c = true → q c = false)
    (l : List Char) : (dropTrailingSp l).any q = l.any q := by
  obtain ⟨S, hS, hall⟩ := dropTrailing_decomp l
  conv_rhs => rw [hS]
  rw [List.any_append, show S.any q = false from List.any_eq_false.2
    (fun c hc => by rw [hq c (hall c hc)]; exact Bool.false_ne_true), Bool.or_false]

theorem any_trim_of (q : Char → Bool) (hq : ∀ c, isSpaceChar c = true → q c = false)
    (l : List Char) : (trimChars l).any q = l.any q := by
  show (dropTrailingSp (l.dropWhile (fun c => isSpaceChar c))).any q = l.any q
  rw [any_dropTrailing_of q hq, any_dropWhile_of q hq]

theorem alpha_not_space (c : Char) (h : isSpaceChar c = true) : isAlphaChar c = false := by
  rcases spaceChar_cases c h with h1 | h1 | h1 | h1 <;> rw [h1] <;> decide

theorem mathSym_not_space (c : Char) (h : isSpaceChar c = true) : isMathSymbolChar c = false := by
  rcases spaceChar_cases c h with h1 | h1 | h1 | h1 <;> rw [h1] <;> decide

theorem containsGraph_trim (l : List Char) :
    containsGraphKeywords ⟨trimChars l⟩ = containsGraphKeywords ⟨l⟩ := by
  show graphKeywordKeys.any (fun k => hasSubAux k.data (trimChars l)) =
    graphKeywordKeys.any (fun k => hasSubAux k.data l)
  exact any_hasSub_trim graphKeywordKeys (by decide) l

theorem containsStats_trim (l : List Char) :
    containsStatsKeywords ⟨trimChars l⟩ = containsStatsKeywords ⟨l⟩ := by
  show statsKeywords.any (fun kv => hasSubAux kv.1.data (trimChars l)) =
    statsKeywords.any (fun kv => hasSubAux kv.1.data l)
  exact any_fst_hasSub_trim statsKeywords (by decide) l

theorem containsTrig_trim (l : List Char) :
    containsTrigKeywords ⟨trimChars l⟩ = containsTrigKeywords ⟨l⟩ := by
  show trigKeywordList.any (fun k => hasSubAux k.data (trimChars l)) =
    trigKeywordList.any (fun k => hasSubAux k.data l)
  exact any_hasSub_trim trigKeywordList (by decide) l

theorem lowerStr_fix {l : List Char} (hlow : ∀ c ∈ l, Char.toLower c = c) :
    lowerStr ⟨l⟩ = ⟨l⟩ := by
  show (⟨l.map Char.toLower⟩ : String) = ⟨l⟩
  rw [map_fix hlow]

theorem containsUnitNames_trim {l : List Char} (hlow : ∀ c ∈ l, Char.toLower c = c) :
    containsUnitNames ⟨trimChars l⟩ = containsUnitNames ⟨l⟩ := by
  show unitKeyTable.any (fun cat => cat.2.any (fun u => strIncludes (lowerStr ⟨trimChars l⟩) u)) =
    unitKeyTable.any (fun cat => cat.2.any (fun u => strIncludes (lowerStr ⟨l⟩) u))
  rw [lowerStr_fix hlow, lowerStr_fix (fun c hc => hlow c (mem_trim hc))]
  show unitKeyTable.any (fun cat => cat.2.any (fun u => hasSubAux u.data (trimChars l))) =
    unitKeyTable.any (fun cat => cat.2.any (fun u => hasSubAux u.data l))
  exact any_units_hasSub_trim unitKeyTable (by decide) l

theorem containsUnitKeywords_trim {l : List Char} (hlow : ∀ c ∈ l, Char.toLower c = c) :
    containsUnitKeywords ⟨trimChars l⟩ = containsUnitKeywords ⟨l⟩ := by
  show (unitKeywordKeys.any (fun k => hasSubAux k.data (trimChars l)) ||
      containsUnitNames ⟨trimChars l⟩) =
    (unitKeywordKeys.any (fun k => hasSubAux k.data l) || containsUnitNames ⟨l⟩)
  rw [any_hasSub_trim unitKeywordKeys (by decide) l, containsUnitNames_trim hlow]

theorem isNaturalLanguage_trim (l : List Char) :
    isNaturalLanguage ⟨trimChars l⟩ = isNaturalLanguage ⟨l⟩ := by
  show (if containsGraphKeywords ⟨trimChars l⟩ then true
    else (trimChars l).any isAlphaChar && !((trimChars l).any isMathSymbolChar)) =
    (if containsGraphKeywords ⟨l⟩ then true
      else l.any isAlphaChar && !(l.any isMathSymbolChar))
  rw [containsGraph_trim l, any_trim_of isAlphaChar alpha_not_space l,
    any_trim_of isMathSymbolChar mathSym_not_space l]

theorem classify_trim {l : List Char} (hlow : ∀ c ∈ l, Char.toLower c = c) :
    classify ⟨trimChars l⟩ = classify ⟨l⟩ := by
  show (isNaturalLanguage ⟨trimChars l⟩, classifyDomain ⟨trimChars l⟩) =
    (isNaturalLanguage ⟨l⟩, classifyDomain ⟨l⟩)
  rw [isNaturalLanguage_trim l]
  show (isNaturalLanguage ⟨l⟩,
    if containsGraphKeywords ⟨trimChars l⟩ then "graphing"
    else if containsUnitKeywords ⟨trimChars l⟩ then "unit conversion"
    else if containsStatsKeywords ⟨trimChars l⟩ then "statistics"
    else if containsTrigKeywords ⟨trimChars l⟩ then "trigonometry"
    else "arithmetic") = (isNaturalLanguage ⟨l⟩, classifyDomain ⟨l⟩)
  rw [containsGraph_trim l, containsUnitKeywords_trim hlow, containsStats_trim l,
    containsTrig_trim l]
  rfl

theorem cleanInput_chars_lower (x : String) :
    ∀ c ∈ (cleanInput x).data, Char.toLower c = c := by
  intro c hc
  have hmem : c ∈ collapseWs false
      ((trimChars (x.data.map Char.toLower)).filter allowedChar) := hc
  rcases collapse_mem hmem with h | h
  · rw [h]; rfl
  · have h1 : c ∈ trimChars (x.data.map Char.toLower) := (List.mem_filter.1 h).1
    have h2 : c ∈ x.data.map Char.toLower := mem_trim h1
    obtain ⟨d, _, hd⟩ := List.mem_map.1 h2
    rw [← hd]
    exact toLower_idem d

theorem cleanInput_chars_allowed (x : String) :
    ∀ c ∈ (cleanInput x).data, allowedChar c = true := by
  intro c hc
  have hmem : c ∈ collapseWs false
      ((trimChars (x.data.map Char.toLower)).filter allowedChar) := hc
  rcases collapse_mem hmem with h | h
  · rw [h]; decide
  · exact (List.mem_filter.1 h).2

theorem cleanInput_spacedOk (x : String) : spacedOk false (cleanInput x).data = true :=
  spacedOk_collapse _ false

theorem cleanInput_idem_upto_trim (x : String) :
    cleanInput (cleanInput x) = ⟨trimChars (cleanInput x).data⟩ := by
  show (⟨collapseWs false
      ((trimChars ((cleanInput x).data.map Char.toLower)).filter allowedChar)⟩ : String) =
    ⟨trimChars (cleanInput x).data⟩
  rw [map_fix (cleanInput_chars_lower x),
    List.filter_eq_self.2 (fun c hc => cleanInput_chars_allowed x c (mem_trim hc)),
    collapse_fix _ false (spacedOk_trim (cleanInput_spacedOk x))]

/-- Claim C9, counterexample: normalization is NOT idempotent (trimming runs
before character stripping, so stripping can expose a new edge space that a
second pass would remove: cleanInput "? 1" keeps a leading space), and
classification is NOT invariant under normalization (keyword matching is
case-sensitive, so the raw "PLOT X^2" is not natural language while its
lowercased normal form is). -/
theorem c9_counterexample_not_idempotent :
    cleanInput (cleanInput "? 1") ≠ cleanInput "? 1" ∧
    classify "PLOT X^2" ≠ classify (cleanInput "PLOT X^2") := by
  constructor
  · decide
  · decide

/-- Claim C9, amended: what does hold is idempotence up to a final trim -
re-normalizing a normalized input only trims its edge spaces - and
classification invariance ON normalized inputs: the classification of a
normalized input equals the classification of its re-normalization (the
classifier only ever runs on normalized text, so its verdict is stable). -/
theorem c9_amended_normalize_classify (x : String) :
    cleanInput (cleanInput x) = ⟨trimChars (cleanInput x).data⟩ ∧
    classify (cleanInput (cleanInput x)) = classify (cleanInput x) := by
  refine ⟨cleanInput_idem_upto_trim x, ?_⟩
  rw [cleanInput_idem_upto_trim x]
  exact classify_trim (cleanInput_chars_lower x)

end CalcAgent
